import Mathlib

/-
Verification of the schema-resolution engine of `src/app.py`
("Global CFM AsyncAPI Explorer").

JSON values are modelled by the inductive type `J` (numbers as `Int`; no claim
exercises float behaviour).  Python `dict`s are insertion-ordered association
lists, Python tuples of schema names are `List String`, and a Python runtime
exception (`AttributeError`, `TypeError`, `KeyError`) is `Option.none`: every
fallible operation runs in the `Option` monad.  String primitives are modelled
on the underlying character lists so that all of them compute by reduction.
-/

inductive J : Type where
  | null : J
  | bool (b : Bool) : J
  | num (n : Int) : J
  | str (s : String) : J
  | arr (elems : List J) : J
  | obj (kvs : List (String × J)) : J

/-- Lookup in a Python dict; returns the first binding of `k` (JSON objects
have unique keys). -/
def jGet (kvs : List (String × J)) (k : String) : Option J :=
  (kvs.find? (fun p => p.1 == k)).map (fun p => p.2)

/-- Python `d.get(k)`: `None` (modelled `J.null`) when the key is absent. -/
def dget (kvs : List (String × J)) (k : String) : J :=
  (jGet kvs k).getD J.null

/-- Python `d.get(k, default)`. -/
def dgetD (kvs : List (String × J)) (k : String) (d : J) : J :=
  (jGet kvs k).getD d

/-- Python `k in d` for a dict: key membership (regardless of the value). -/
def hasKey (kvs : List (String × J)) (k : String) : Bool :=
  (jGet kvs k).isSome

/-- Python truthiness of a JSON value. -/
def J.truthy : J → Bool
  | .null => false
  | .bool b => b
  | .num n => n != 0
  | .str s => s != ""
  | .arr xs => !xs.isEmpty
  | .obj kvs => !kvs.isEmpty

/-- Python `a or b`. -/
def jor (a b : J) : J := if a.truthy then a else b

/-- Python `v == s` for a JSON value and a string literal. -/
def isStrEq (v : J) (s : String) : Bool :=
  match v with
  | .str t => t == s
  | _ => false

mutual

/-- Python `repr` restricted to JSON-shaped values (string escaping is not
modelled; no claim exercises it). -/
def pyRepr : J → String
  | .null => "None"
  | .bool b => if b then "True" else "False"
  | .num n => toString n
  | .str s => "'" ++ s ++ "'"
  | .arr xs => "[" ++ pyReprElems xs ++ "]"
  | .obj kvs => "\x7b" ++ pyReprPairs kvs ++ "\x7d"
termination_by j => sizeOf j

/-- Comma-separated `repr`s of the elements of a list. -/
def pyReprElems : List J → String
  | [] => ""
  | [x] => pyRepr x
  | x :: y :: rest => pyRepr x ++ ", " ++ pyReprElems (y :: rest)
termination_by l => sizeOf l

/-- Comma-separated `'key': repr(value)` pairs of a dict. -/
def pyReprPairs : List (String × J) → String
  | [] => ""
  | [(k, v)] => "'" ++ k ++ "': " ++ pyRepr v
  | (k, v) :: q :: rest => "'" ++ k ++ "': " ++ pyRepr v ++ ", " ++ pyReprPairs (q :: rest)
termination_by l => sizeOf l

end

/-- Python `str` applied inside an f-string. -/
def pyStr : J → String
  | .str s => s
  | v => pyRepr v

/-- Python `s.strip()` (ASCII whitespace, as in every claim). -/
def pyStrip (s : String) : String :=
  String.mk (((s.data.dropWhile Char.isWhitespace).reverse.dropWhile Char.isWhitespace).reverse)

/-- app.py `normalize_desc` (lines 48–51).  The fallback name is interpolated
into an f-string, hence `pyStr`. -/
def normalize_desc (desc : J) (fallback_name : J) : String :=
  match desc with
  | .str s =>
      if pyStrip s != "" then pyStrip s
      else "No description provided for \"" ++ pyStr fallback_name ++ "\"."
  | _ => "No description provided for \"" ++ pyStr fallback_name ++ "\"."

/-- The last `/`-separated component of a character list (`acc` holds the
current component reversed); Python `ref.split("/")[-1]`. -/
def lastSlashComp : List Char → List Char → List Char
  | [], acc => acc.reverse
  | '/' :: rest, _ => lastSlashComp rest []
  | c :: rest, acc => lastSlashComp rest (c :: acc)

/-- app.py `ref_name` (lines 53–57): last `/`-separated component of a `$ref`
string, `""` for a non-string. -/
def ref_name (ref : J) : String :=
  match ref with
  | .str s => String.mk (lastSlashComp s.data [])
  | _ => ""

/-- Python substring test `pat in s` on character lists. -/
def listHasSub (pat : List Char) : List Char → Bool
  | [] => pat.isEmpty
  | c :: rest => pat.isPrefixOf (c :: rest) || listHasSub pat rest

/-- Python `word.capitalize()`: first character upper-cased, the rest
lower-cased (ASCII, as in every claim). -/
def pyCapitalize (w : String) : String :=
  match w.data with
  | [] => ""
  | c :: cs => String.mk (c.toUpper :: cs.map Char.toLower)

/-- The word-splitting loop of app.py `clean_name` (lines 74–83): a new word
starts at each upper-case character that follows a non-empty current word.
`cur` is the current word accumulated in reverse. -/
def splitWordsAux : List Char → List Char → List (List Char)
  | [], cur => if cur.isEmpty then [] else [cur.reverse]
  | c :: cs, cur =>
      if c.isUpper && !cur.isEmpty then cur.reverse :: splitWordsAux cs [c]
      else splitWordsAux cs (c :: cur)

/-- app.py `clean_name` (lines 66–84): strip at most one recognized leading
marker (`"definedAt"`, `"is"`, `"has"`, `"x"`, tried in that order), split
into words at upper-case boundaries, capitalize each word and join. -/
def clean_name (name : String) : String :=
  let stripped :=
    if "definedAt".data.isPrefixOf name.data then name.data.drop 9
    else if "is".data.isPrefixOf name.data then name.data.drop 2
    else if "has".data.isPrefixOf name.data then name.data.drop 3
    else if "x".data.isPrefixOf name.data then name.data.drop 1
    else name.data
  String.join ((splitWordsAux stripped []).map (fun w => pyCapitalize (String.mk w)))

example : clean_name "isActiveFlag" = "ActiveFlag" := by decide
example : clean_name "hasChildren" = "Children" := by decide
example : clean_name "xSinceVersion" = "SinceVersion" := by decide
example : clean_name "PlainName" = "PlainName" := by decide
example : clean_name "address" = "Address" := by decide

/-- Any value found by `jGet` is structurally smaller than the object. -/
theorem sizeOf_lt_of_jGet {kvs : List (String × J)} {k : String} {v : J}
    (h : jGet kvs k = some v) : sizeOf v < sizeOf (J.obj kvs) := by
  unfold jGet at h
  cases hf : kvs.find? (fun p => p.1 == k) with
  | none => rw [hf] at h; simp at h
  | some p =>
      rw [hf] at h
      simp at h
      have hm : p ∈ kvs := List.mem_of_find?_eq_some hf
      have h1 : sizeOf p < sizeOf kvs := List.sizeOf_lt_of_mem hm
      have h2 : sizeOf v < sizeOf p := by
        cases p with
        | mk a b => simp at h ⊢; subst h; omega
      simp only [J.obj.sizeOf_spec]
      omega

-- ---------- Recursive `$ref` finder (app.py lines 218–233) ----------
-- Each key-driven branch of the Python function is its own definition so that
-- both the termination argument and the soundness proof of the fueled
-- evaluator stay local to one small pattern match.

mutual

/-- app.py `find_all_refs` (lines 218–233): collect every `$ref` target name
under `items`, `properties` and `allOf`/`oneOf`/`anyOf`, in that order.
Fails (Python `AttributeError`) when a present `properties` section is not a
dict. -/
def find_all_refs : J → Option (List String)
  | .obj kvs => do
      let r1 : List String :=
        match jGet kvs "$ref" with
        | some v => [ref_name v]
        | none => []
      let r2 ← items_refs kvs
      let r3 ← props_refs kvs
      let r4 ← listkey_refs kvs "allOf"
      let r5 ← listkey_refs kvs "oneOf"
      let r6 ← listkey_refs kvs "anyOf"
      pure (r1 ++ r2 ++ r3 ++ r4 ++ r5 ++ r6)
  | _ => pure []
termination_by j => (sizeOf j, 1)

/-- Line 224–225: `if "items" in node and isinstance(node["items"], dict):
refs.extend(find_all_refs(node["items"]))`. -/
def items_refs (kvs : List (String × J)) : Option (List String) :=
  match hI : jGet kvs "items" with
  | some (.obj ikvs) => find_all_refs (.obj ikvs)
  | _ => pure []
termination_by (sizeOf (J.obj kvs), 0)
decreasing_by
  all_goals
    first
      | decreasing_tactic
      | (have h1 := sizeOf_lt_of_jGet hI
         simp only [J.obj.sizeOf_spec, J.arr.sizeOf_spec] at h1
         simp_wf
         first
           | (apply Prod.Lex.left; omega)
           | omega)

/-- Lines 226–228: the loop over `node["properties"].values()`; a present
non-dict `properties` value raises (`none`). -/
def props_refs (kvs : List (String × J)) : Option (List String) :=
  match hP : jGet kvs "properties" with
  | some (.obj pkvs) => refs_vals pkvs
  | some _ => none
  | none => pure []
termination_by (sizeOf (J.obj kvs), 0)
decreasing_by
  all_goals
    first
      | decreasing_tactic
      | (have h1 := sizeOf_lt_of_jGet hP
         simp only [J.obj.sizeOf_spec, J.arr.sizeOf_spec] at h1
         simp_wf
         first
           | (apply Prod.Lex.left; omega)
           | omega)

/-- The value loop of `props_refs`. -/
def refs_vals : List (String × J) → Option (List String)
  | [] => pure []
  | (_, v) :: rest => do
      let a ← find_all_refs v
      let b ← refs_vals rest
      pure (a ++ b)
termination_by l => (sizeOf l, 1)

/-- Lines 229–232: for `key` in `allOf`/`oneOf`/`anyOf`, if present with a
list value, recurse into every member. -/
def listkey_refs (kvs : List (String × J)) (key : String) : Option (List String) :=
  match hK : jGet kvs key with
  | some (.arr xs) => refs_elems xs
  | _ => pure []
termination_by (sizeOf (J.obj kvs), 0)
decreasing_by
  all_goals
    first
      | decreasing_tactic
      | (have h1 := sizeOf_lt_of_jGet hK
         simp only [J.obj.sizeOf_spec, J.arr.sizeOf_spec] at h1
         simp_wf
         first
           | (apply Prod.Lex.left; omega)
           | omega)

/-- The member loop of `listkey_refs`. -/
def refs_elems : List J → Option (List String)
  | [] => pure []
  | v :: rest => do
      let a ← find_all_refs v
      let b ← refs_elems rest
      pure (a ++ b)
termination_by l => (sizeOf l, 1)

end

-- ---------- Fueled evaluator for the `$ref` finder ----------
-- The functions above are compiled by well-founded recursion and do not
-- reduce inside the kernel.  The fueled mirrors below are structurally
-- recursive on the fuel (outer `none` = fuel exhausted, inner `Option` is the
-- modelled Python result), so concrete runs reduce by `rfl`; the soundness
-- theorem transports such runs to the real functions.

/-- Bind for fueled evaluators. -/
def fbind (a : Option (Option α)) (f : α → Option (Option β)) : Option (Option β) :=
  match a with
  | none => none
  | some none => some none
  | some (some x) => f x

/-- Return for fueled evaluators. -/
def fret (x : α) : Option (Option α) := some (some x)

mutual

/-- Fueled mirror of `find_all_refs`. -/
def find_all_refsF : Nat → J → Option (Option (List String))
  | 0, _ => none
  | fuel + 1, j =>
    match j with
    | .obj kvs =>
        let r1 : List String :=
          match jGet kvs "$ref" with
          | some v => [ref_name v]
          | none => []
        fbind (items_refsF fuel kvs) (fun r2 =>
        fbind (props_refsF fuel kvs) (fun r3 =>
        fbind (listkey_refsF fuel kvs "allOf") (fun r4 =>
        fbind (listkey_refsF fuel kvs "oneOf") (fun r5 =>
        fbind (listkey_refsF fuel kvs "anyOf") (fun r6 =>
        fret (r1 ++ r2 ++ r3 ++ r4 ++ r5 ++ r6))))))
    | _ => fret []
termination_by structural fuel _ => fuel

/-- Fueled mirror of `items_refs`. -/
def items_refsF : Nat → List (String × J) → Option (Option (List String))
  | 0, _ => none
  | fuel + 1, kvs =>
    match jGet kvs "items" with
    | some (.obj ikvs) => find_all_refsF fuel (.obj ikvs)
    | _ => fret []
termination_by structural fuel _ => fuel

/-- Fueled mirror of `props_refs`. -/
def props_refsF : Nat → List (String × J) → Option (Option (List String))
  | 0, _ => none
  | fuel + 1, kvs =>
    match jGet kvs "properties" with
    | some (.obj pkvs) => refs_valsF fuel pkvs
    | some _ => some none
    | none => fret []
termination_by structural fuel _ => fuel

/-- Fueled mirror of `refs_vals`. -/
def refs_valsF : Nat → List (String × J) → Option (Option (List String))
  | 0, _ => none
  | _ + 1, [] => fret []
  | fuel + 1, (_, v) :: rest =>
      fbind (find_all_refsF fuel v) (fun a =>
      fbind (refs_valsF fuel rest) (fun b =>
      fret (a ++ b)))
termination_by structural fuel _ => fuel

/-- Fueled mirror of `listkey_refs`. -/
def listkey_refsF : Nat → List (String × J) → String → Option (Option (List String))
  | 0, _, _ => none
  | fuel + 1, kvs, key =>
    match jGet kvs key with
    | some (.arr xs) => refs_elemsF fuel xs
    | _ => fret []
termination_by structural fuel _ _ => fuel

/-- Fueled mirror of `refs_elems`. -/
def refs_elemsF : Nat → List J → Option (Option (List String))
  | 0, _ => none
  | _ + 1, [] => fret []
  | fuel + 1, v :: rest =>
      fbind (find_all_refsF fuel v) (fun a =>
      fbind (refs_elemsF fuel rest) (fun b =>
      fret (a ++ b)))
termination_by structural fuel _ => fuel

end

/-- Soundness of the fueled `$ref`-finder mirrors: whenever the fuel does not
run out, the mirror computes exactly the real functions' results. -/
theorem refs_family_sound : ∀ fuel : Nat,
    (∀ j res, find_all_refsF fuel j = some res → find_all_refs j = res) ∧
    (∀ kvs res, items_refsF fuel kvs = some res → items_refs kvs = res) ∧
    (∀ kvs res, props_refsF fuel kvs = some res → props_refs kvs = res) ∧
    (∀ l res, refs_valsF fuel l = some res → refs_vals l = res) ∧
    (∀ kvs key res, listkey_refsF fuel kvs key = some res → listkey_refs kvs key = res) ∧
    (∀ l res, refs_elemsF fuel l = some res → refs_elems l = res) := by
  intro fuel
  induction fuel with
  | zero =>
      refine ⟨?_, ?_, ?_, ?_, ?_, ?_⟩ <;> intros <;>
        simp_all [find_all_refsF, items_refsF, props_refsF, refs_valsF, listkey_refsF,
          refs_elemsF]
  | succ fuel ih =>
      obtain ⟨ih1, ih2, ih3, ih4, ih5, ih6⟩ := ih
      refine ⟨?_, ?_, ?_, ?_, ?_, ?_⟩
      · intro j res h
        match j with
        | .null => simp_all [find_all_refsF, find_all_refs, fret]
        | .bool b => simp_all [find_all_refsF, find_all_refs, fret]
        | .num n => simp_all [find_all_refsF, find_all_refs, fret]
        | .str s => simp_all [find_all_refsF, find_all_refs, fret]
        | .arr xs => simp_all [find_all_refsF, find_all_refs, fret]
        | .obj kvs =>
            simp only [find_all_refsF] at h
            rw [find_all_refs]
            cases h2 : items_refsF fuel kvs with
            | none => rw [h2] at h; simp [fbind] at h
            | some o2 =>
                rw [h2] at h
                rw [ih2 _ _ h2]
                cases o2 with
                | none => simp [fbind] at h; subst h; simp
                | some r2 =>
                    simp only [fbind] at h
                    simp only [Option.bind_eq_bind, Option.some_bind]
                    cases h3 : props_refsF fuel kvs with
                    | none => rw [h3] at h; simp [fbind] at h
                    | some o3 =>
                        rw [h3] at h
                        rw [ih3 _ _ h3]
                        cases o3 with
                        | none => simp [fbind] at h; subst h; simp
                        | some r3 =>
                            simp only [fbind] at h
                            simp only [Option.bind_eq_bind, Option.some_bind]
                            cases h4 : listkey_refsF fuel kvs "allOf" with
                            | none => rw [h4] at h; simp [fbind] at h
                            | some o4 =>
                                rw [h4] at h
                                rw [ih5 _ _ _ h4]
                                cases o4 with
                                | none => simp [fbind] at h; subst h; simp
                                | some r4 =>
                                    simp only [fbind] at h
                                    simp only [Option.bind_eq_bind, Option.some_bind]
                                    cases h5 : listkey_refsF fuel kvs "oneOf" with
                                    | none => rw [h5] at h; simp [fbind] at h
                                    | some o5 =>
                                        rw [h5] at h
                                        rw [ih5 _ _ _ h5]
                                        cases o5 with
                                        | none => simp [fbind] at h; subst h; simp
                                        | some r5 =>
                                            simp only [fbind] at h
                                            simp only [Option.bind_eq_bind, Option.some_bind]
                                            cases h6 : listkey_refsF fuel kvs "anyOf" with
                                            | none => rw [h6] at h; simp [fbind] at h
                                            | some o6 =>
                                                rw [h6] at h
                                                rw [ih5 _ _ _ h6]
                                                cases o6 with
                                                | none => simp [fbind] at h; subst h; simp
                                                | some r6 =>
                                                    simp [fret] at h
                                                    subst h
                                                    simp
      · intro kvs res h
        simp only [items_refsF] at h
        rw [items_refs]
        cases hI : jGet kvs "items" with
        | none => rw [hI] at h; simp_all [fret]
        | some v =>
            rw [hI] at h
            cases v with
            | obj ikvs => exact ih1 _ _ h
            | null => simp_all [fret]
            | bool b => simp_all [fret]
            | num n => simp_all [fret]
            | str s => simp_all [fret]
            | arr xs => simp_all [fret]
      · intro kvs res h
        simp only [props_refsF] at h
        rw [props_refs]
        cases hP : jGet kvs "properties" with
        | none => rw [hP] at h; simp_all [fret]
        | some v =>
            rw [hP] at h
            cases v with
            | obj pkvs => exact ih4 _ _ h
            | null => simp_all [fret]
            | bool b => simp_all [fret]
            | num n => simp_all [fret]
            | str s => simp_all [fret]
            | arr xs => simp_all [fret]
      · intro l res h
        match l with
        | [] => simp_all [refs_valsF, refs_vals, fret]
        | (k, v) :: rest =>
            simp only [refs_valsF] at h
            rw [refs_vals]
            cases ha : find_all_refsF fuel v with
            | none => rw [ha] at h; simp [fbind] at h
            | some oa =>
                rw [ha] at h
                rw [ih1 _ _ ha]
                cases oa with
                | none => simp [fbind] at h; subst h; simp
                | some a =>
                    simp only [fbind] at h
                    simp only [Option.bind_eq_bind, Option.some_bind]
                    cases hb : refs_valsF fuel rest with
                    | none => rw [hb] at h; simp [fbind] at h
                    | some ob =>
                        rw [hb] at h
                        rw [ih4 _ _ hb]
                        cases ob with
                        | none => simp [fbind] at h; subst h; simp
                        | some b =>
                            simp [fret] at h
                            subst h
                            rfl
      · intro kvs key res h
        simp only [listkey_refsF] at h
        rw [listkey_refs]
        cases hK : jGet kvs key with
        | none => rw [hK] at h; simp_all [fret]
        | some v =>
            rw [hK] at h
            cases v with
            | arr xs => exact ih6 _ _ h
            | null => simp_all [fret]
            | bool b => simp_all [fret]
            | num n => simp_all [fret]
            | str s => simp_all [fret]
            | obj okvs => simp_all [fret]
      · intro l res h
        match l with
        | [] => simp_all [refs_elemsF, refs_elems, fret]
        | v :: rest =>
            simp only [refs_elemsF] at h
            rw [refs_elems]
            cases ha : find_all_refsF fuel v with
            | none => rw [ha] at h; simp [fbind] at h
            | some oa =>
                rw [ha] at h
                rw [ih1 _ _ ha]
                cases oa with
                | none => simp [fbind] at h; subst h; simp
                | some a =>
                    simp only [fbind] at h
                    simp only [Option.bind_eq_bind, Option.some_bind]
                    cases hb : refs_elemsF fuel rest with
                    | none => rw [hb] at h; simp [fbind] at h
                    | some ob =>
                        rw [hb] at h
                        rw [ih6 _ _ hb]
                        cases ob with
                        | none => simp [fbind] at h; subst h; simp
                        | some b =>
                            simp [fret] at h
                            subst h
                            rfl

-- ---------- Schema resolution (app.py lines 87–215) ----------
-- `resolve_schema`'s nested closures `add_property` and `build_attr` are
-- modelled as separate functions, their captured variables (`comps`,
-- `schema_name`, `raw` = `rkvs`, `visited`, `depth`, `attrs`) passed
-- explicitly; each line group with its own control flow is a helper
-- definition so that termination and the fueled-evaluator soundness stay
-- local.

/-- The "unknown schema" terminal node, app.py line 95. -/
def unknownSchema (schema_name : String) : J :=
  J.obj [("title", .str schema_name), ("type", .str "object"),
    ("description", .str ("Unknown schema '" ++ schema_name ++ "'.")),
    ("attributes", .arr [])]

/-- The circular-reference terminal node, app.py line 90. -/
def circularSchema (visited : List String) (schema_name : String) : J :=
  J.obj [("title", .str schema_name), ("type", .str "object"),
    ("description", .str ("Circular reference: " ++
      String.intercalate " → " (visited ++ [schema_name]))),
    ("attributes", .arr [])]

/-- The collapsed-reference placeholder child, app.py lines 114, 125, 159, 176. -/
def refCollapsed (r : String) : J :=
  J.obj [("name", .str ("(ref) " ++ r)), ("type", .str "object"),
    ("description", .str "Reference (collapsed)"), ("examples", .arr [])]

/-- Python `child.get("attributes", [])` on a resolved schema.  `resolve_schema`
always returns an object whose `"attributes"` key holds an array, so the
default branches are unreachable. -/
def childAttrs (child : J) : List J :=
  match child with
  | .obj kvs =>
      match jGet kvs "attributes" with
      | some (.arr xs) => xs
      | _ => []
  | _ => []

/-- Python `examples if isinstance(examples, list) else [examples]`
(app.py lines 140 and 184). -/
def wrapExamples : J → J
  | .arr xs => .arr xs
  | v => .arr [v]

/-- Python `"$ref" in x` for an arbitrary value: key membership for a dict,
substring test for a string, element membership for a list, `TypeError`
(modelled `none`) otherwise. -/
def containsRefKey : J → Option Bool
  | .obj kvs => some (hasKey kvs "$ref")
  | .str s => some (listHasSub "$ref".data s.data)
  | .arr xs => some (xs.any (fun v => isStrEq v "$ref"))
  | _ => none

/-- Python `x["$ref"]` when `"$ref" in x` already held: a dict yields the
value; a string or list raises `TypeError` on a string index. -/
def subscriptRef : J → Option J
  | .obj kvs => jGet kvs "$ref"
  | _ => none

mutual

/-- app.py `resolve_schema(schema_name, visited, depth)` (lines 87–100,
188–215): cycle guard, unknown-schema fallback, then the property loop
followed by the `allOf` loop, and the final result object. -/
def resolve_schema (comps : List (String × J)) (schema_name : String)
    (visited : List String) (depth : Nat) : Option J :=
  if schema_name ∈ visited then
    some (circularSchema visited schema_name)
  else
    match jGet comps schema_name with
    | none => some (unknownSchema schema_name)
    | some .null => some (unknownSchema schema_name)
    | some (.obj rkvs) => do
        let title := dgetD rkvs "title" (.str schema_name)
        let stype := dgetD rkvs "type" (.str "object")
        let desc := normalize_desc (dget rkvs "description") title
        let propAttrs ←
          match jor (dget rkvs "properties") (.obj []) with
          | .obj pkvs => resolve_props comps schema_name rkvs visited depth pkvs
          | _ => none
        let allAttrs ←
          match jGet rkvs "allOf" with
          | some (.arr members) => resolve_allOf comps schema_name visited depth members
          | _ => pure []
        pure (J.obj [("title", title), ("type", stype), ("description", .str desc),
          ("xSinceVersion", dget rkvs "x-since-version"),
          ("xFieldType", dget rkvs "x-field-type"),
          ("xTag", dget rkvs "x-tag"),
          ("attributes", .arr (propAttrs ++ allAttrs))])
    | some _ => none
termination_by (2 - depth, 9, 0, 0)

/-- The loop `for pname, pnode in (raw.get("properties") or {}).items():
add_property(pname, pnode)` (app.py lines 188–189). -/
def resolve_props (comps : List (String × J)) (schema_name : String)
    (rkvs : List (String × J)) (visited : List String) (depth : Nat) :
    List (String × J) → Option (List J)
  | [] => pure []
  | (pname, pnode) :: rest => do
      let a ← add_property comps schema_name rkvs visited depth pname pnode
      let r ← resolve_props comps schema_name rkvs visited depth rest
      pure (a :: r)
termination_by pl => (2 - depth, 8, sizeOf pl, 0)

/-- app.py `add_property(name, node)` (lines 102–145): read `type`,
`examples`, `description`; resolve a direct `$ref` into children
(`ref_children`); apply the array branch (`array_part`); then append the
attribute with the extension-field fallbacks. -/
def add_property (comps : List (String × J)) (schema_name : String)
    (rkvs : List (String × J)) (visited : List String) (depth : Nat)
    (name : String) (node : J) : Option J :=
  match node with
  | .obj nkvs => do
      let ptype0 := dget nkvs "type"
      let examples := jor (dget nkvs "examples") (.arr [])
      let description := normalize_desc (dget nkvs "description") (.str name)
      let children0 ← ref_children comps schema_name visited depth nkvs
      let ptc ← array_part comps schema_name visited depth nkvs ptype0 children0
      let x_since := jor (dget nkvs "x-since-version") (dget rkvs "x-since-version")
      let x_ftype := jor (dget nkvs "x-field-type") (dget rkvs "x-field-type")
      let x_tag := jor (dget nkvs "x-tag") (dget rkvs "x-tag")
      pure (J.obj [("name", .str (clean_name name)),
        ("type", jor ptc.1 (.str "object")),
        ("description", .str description),
        ("examples", wrapExamples examples),
        ("xSinceVersion", x_since), ("xFieldType", x_ftype), ("xTag", x_tag),
        ("children", .arr ptc.2)])
  | _ => none
termination_by (2 - depth, 7, 0, 0)

/-- Lines 108–114 of app.py: if the node carries a `$ref`, either resolve the
referenced schema (depth below the bound) and adopt its attributes, or emit
the collapsed placeholder. -/
def ref_children (comps : List (String × J)) (schema_name : String)
    (visited : List String) (depth : Nat) (nkvs : List (String × J)) :
    Option (List J) :=
  if hasKey nkvs "$ref" then
    let ref := ref_name (dget nkvs "$ref")
    if hdl : depth < 2 then do
      let child ← resolve_schema comps ref (visited ++ [schema_name]) (depth + 1)
      pure (childAttrs child)
    else pure [refCollapsed ref]
  else pure []
termination_by (2 - depth, 6, 0, 0)

/-- Lines 116–130 of app.py: the array branch of `add_property`.  Takes and
returns the pair (current `ptype`, current `children`). -/
def array_part (comps : List (String × J)) (schema_name : String)
    (visited : List String) (depth : Nat) (nkvs : List (String × J))
    (ptype0 : J) (children0 : List J) : Option (J × List J) :=
  if isStrEq ptype0 "array" then
    let items := dgetD nkvs "items" (.obj [])
    match containsRefKey items with
    | none => none
    | some true => do
        let irefv ← subscriptRef items
        let iref := ref_name irefv
        if hdl : depth < 2 then do
          let child ← resolve_schema comps iref (visited ++ [schema_name]) (depth + 1)
          pure (J.str ("array of " ++ iref), childAttrs child)
        else
          pure (J.str ("array of " ++ iref), [refCollapsed iref])
    | some false =>
        match items with
        | .obj ikvs =>
            let pt := J.str ("array of " ++ pyStr (dgetD ikvs "type" (.str "object")))
            match dget ikvs "properties" with
            | .obj pkvs =>
                if (J.obj pkvs).truthy then do
                  let subs ← build_attrs comps schema_name visited depth pkvs
                  pure (pt, children0 ++ subs)
                else pure (pt, children0)
            | pv => if pv.truthy then none else pure (pt, children0)
        | _ => none
  else pure (ptype0, children0)
termination_by (2 - depth, 6, 0, 0)

/-- The `allOf` loop of `resolve_schema` (app.py lines 191–205). -/
def resolve_allOf (comps : List (String × J)) (schema_name : String)
    (visited : List String) (depth : Nat) : List J → Option (List J)
  | [] => pure []
  | member :: rest => do
      let hasR ← containsRefKey member
      let here ←
        if hasR then do
          let bv ← subscriptRef member
          let base := ref_name bv
          if hdl : depth < 2 then do
            let child ← resolve_schema comps base (visited ++ [schema_name]) (depth + 1)
            pure [J.obj [("name", .str ("(allOf) " ++ clean_name base)),
              ("type", .str "object"),
              ("description", .str ("Inherits from " ++ base ++ ".")),
              ("examples", .arr []),
              ("children", .arr (childAttrs child))]]
          else
            pure [J.obj [("name", .str ("(allOf) " ++ clean_name base)),
              ("type", .str "object"),
              ("description", .str "Inheritance (collapsed)."),
              ("examples", .arr []),
              ("children", .arr [])]]
        else pure ([] : List J)
      let r ← resolve_allOf comps schema_name visited depth rest
      pure (here ++ r)
termination_by ml => (2 - depth, 8, sizeOf ml, 0)

/-- The loops building child attributes from nested `properties`
(app.py lines 129–130 and 163–164). -/
def build_attrs (comps : List (String × J)) (owner : String)
    (visited : List String) (dpth : Nat) : List (String × J) → Option (List J)
  | [] => pure []
  | (subname, subnode) :: rest => do
      let a ← build_attr comps subname subnode owner visited dpth
      let r ← build_attrs comps owner visited dpth rest
      pure (a :: r)
termination_by pl => (2 - dpth, 5, sizeOf pl, 0)

/-- app.py `build_attr(name, node, owner, visited_tuple, dpth)`
(lines 147–186): `$ref` branch (`battr_ref_part`), nested `properties`
(`battr_props_part`), array branch (`battr_array_part`), then the
five-field attribute. -/
def build_attr (comps : List (String × J)) (name : String) (node : J)
    (owner : String) (visited_t : List String) (dpth : Nat) : Option J :=
  match node with
  | .obj nkvs => do
      let ptype0 := dgetD nkvs "type" (.str "object")
      let description := normalize_desc (dget nkvs "description") (.str name)
      let examples := jor (dget nkvs "examples") (.arr [])
      let pc ← battr_ref_part comps owner visited_t dpth nkvs ptype0
      let children2 ← battr_props_part comps owner visited_t dpth nkvs pc.2
      let ptc ← battr_array_part comps owner visited_t dpth nkvs pc.1 children2
      pure (J.obj [("name", .str (clean_name name)), ("type", ptc.1),
        ("description", .str description), ("examples", wrapExamples examples),
        ("children", .arr ptc.2)])
  | _ => none
termination_by (2 - dpth, 5, sizeOf node, 1)

/-- Lines 153–160 of app.py: the `$ref` branch of `build_attr`; unlike
`add_property`, it also overwrites the type with the referenced name. -/
def battr_ref_part (comps : List (String × J)) (owner : String)
    (visited_t : List String) (dpth : Nat) (nkvs : List (String × J))
    (ptype0 : J) : Option (J × List J) :=
  if hasKey nkvs "$ref" then do
    let r := ref_name (dget nkvs "$ref")
    let ch ←
      if hdl : dpth < 2 then do
        let child ← resolve_schema comps r (visited_t ++ [owner]) (dpth + 1)
        pure (childAttrs child)
      else pure [refCollapsed r]
    pure (J.str r, ch)
  else pure (ptype0, [])
termination_by (2 - dpth, 4, 0, 0)

/-- Lines 162–164 of app.py: append a child attribute for every nested
property (a truthy non-dict `properties` raises). -/
def battr_props_part (comps : List (String × J)) (owner : String)
    (visited_t : List String) (dpth : Nat) (nkvs : List (String × J))
    (children1 : List J) : Option (List J) :=
  match hp : jGet nkvs "properties" with
  | some (.obj pkvs) =>
      if (J.obj pkvs).truthy then do
        let subs ← build_attrs comps owner visited_t dpth pkvs
        pure (children1 ++ subs)
      else pure children1
  | some pv => if pv.truthy then none else pure children1
  | none => pure children1
termination_by (2 - dpth, 5, sizeOf (J.obj nkvs), 0)
decreasing_by
  all_goals
    first
      | decreasing_tactic
      | (have h1 := sizeOf_lt_of_jGet hp
         simp only [J.obj.sizeOf_spec] at h1 ⊢
         simp_wf
         first
           | (apply Prod.Lex.right; apply Prod.Lex.right; apply Prod.Lex.left; omega)
           | omega)

/-- Lines 166–178 of app.py: the array branch of `build_attr`; a `$ref` under
`items` overwrites both type and children, otherwise only the type becomes
`"array of <items type>"`. -/
def battr_array_part (comps : List (String × J)) (owner : String)
    (visited_t : List String) (dpth : Nat) (nkvs : List (String × J))
    (ptype1 : J) (children2 : List J) : Option (J × List J) :=
  if isStrEq ptype1 "array" || isStrEq (dget nkvs "type") "array" then
    match dgetD nkvs "items" (.obj []) with
    | .obj ikvs =>
        let it_type := dgetD ikvs "type" (.str "object")
        if hasKey ikvs "$ref" then do
          let r := ref_name (dget ikvs "$ref")
          let ch ←
            if hdl : dpth < 2 then do
              let child ← resolve_schema comps r (visited_t ++ [owner]) (dpth + 1)
              pure (childAttrs child)
            else pure [refCollapsed r]
          pure (J.str ("array of " ++ r), ch)
        else pure (J.str ("array of " ++ pyStr it_type), children2)
    | _ => none
  else pure (ptype1, children2)
termination_by (2 - dpth, 4, 0, 0)

end

/-- The public entry point: app.py line 287 calls `resolve_schema(name)` with
the default arguments `visited=None` (treated as the empty tuple) and
`depth=0`. -/
def resolve_root (comps : List (String × J)) (name : String) : Option J :=
  resolve_schema comps name [] 0

-- ---------- Fueled evaluator for the resolver ----------

/-- Lift a non-recursive fallible step into a fueled evaluator. -/
def flift (a : Option α) : Option (Option α) := some a

mutual

/-- Fueled mirror of `resolve_schema`. -/
def resolve_schemaF (comps : List (String × J)) : Nat → String → List String → Nat →
    Option (Option J)
  | 0, _, _, _ => none
  | fuel + 1, schema_name, visited, depth =>
    if schema_name ∈ visited then
      fret (circularSchema visited schema_name)
    else
      match jGet comps schema_name with
      | none => fret (unknownSchema schema_name)
      | some .null => fret (unknownSchema schema_name)
      | some (.obj rkvs) =>
          let title := dgetD rkvs "title" (.str schema_name)
          let stype := dgetD rkvs "type" (.str "object")
          let desc := normalize_desc (dget rkvs "description") title
          fbind (match jor (dget rkvs "properties") (.obj []) with
                 | .obj pkvs => resolve_propsF comps fuel schema_name rkvs visited depth pkvs
                 | _ => some none) (fun propAttrs =>
          fbind (match jGet rkvs "allOf" with
                 | some (.arr members) => resolve_allOfF comps fuel schema_name visited depth members
                 | _ => fret []) (fun allAttrs =>
          fret (J.obj [("title", title), ("type", stype), ("description", .str desc),
            ("xSinceVersion", dget rkvs "x-since-version"),
            ("xFieldType", dget rkvs "x-field-type"),
            ("xTag", dget rkvs "x-tag"),
            ("attributes", .arr (propAttrs ++ allAttrs))])))
      | some _ => some none
termination_by structural fuel _ _ _ => fuel

/-- Fueled mirror of `resolve_props`. -/
def resolve_propsF (comps : List (String × J)) : Nat → String → List (String × J) →
    List String → Nat → List (String × J) → Option (Option (List J))
  | 0, _, _, _, _, _ => none
  | _ + 1, _, _, _, _, [] => fret []
  | fuel + 1, schema_name, rkvs, visited, depth, (pname, pnode) :: rest =>
      fbind (add_propertyF comps fuel schema_name rkvs visited depth pname pnode) (fun a =>
      fbind (resolve_propsF comps fuel schema_name rkvs visited depth rest) (fun r =>
      fret (a :: r)))
termination_by structural fuel _ _ _ _ _ => fuel

/-- Fueled mirror of `add_property`. -/
def add_propertyF (comps : List (String × J)) : Nat → String → List (String × J) →
    List String → Nat → String → J → Option (Option J)
  | 0, _, _, _, _, _, _ => none
  | fuel + 1, schema_name, rkvs, visited, depth, name, node =>
    match node with
    | .obj nkvs =>
        let ptype0 := dget nkvs "type"
        let examples := jor (dget nkvs "examples") (.arr [])
        let description := normalize_desc (dget nkvs "description") (.str name)
        fbind (ref_childrenF comps fuel schema_name visited depth nkvs) (fun children0 =>
        fbind (array_partF comps fuel schema_name visited depth nkvs ptype0 children0) (fun ptc =>
        let x_since := jor (dget nkvs "x-since-version") (dget rkvs "x-since-version")
        let x_ftype := jor (dget nkvs "x-field-type") (dget rkvs "x-field-type")
        let x_tag := jor (dget nkvs "x-tag") (dget rkvs "x-tag")
        fret (J.obj [("name", .str (clean_name name)),
          ("type", jor ptc.1 (.str "object")),
          ("description", .str description),
          ("examples", wrapExamples examples),
          ("xSinceVersion", x_since), ("xFieldType", x_ftype), ("xTag", x_tag),
          ("children", .arr ptc.2)])))
    | _ => some none
termination_by structural fuel _ _ _ _ _ _ => fuel

/-- Fueled mirror of `ref_children`. -/
def ref_childrenF (comps : List (String × J)) : Nat → String → List String → Nat →
    List (String × J) → Option (Option (List J))
  | 0, _, _, _, _ => none
  | fuel + 1, schema_name, visited, depth, nkvs =>
    if hasKey nkvs "$ref" then
      let ref := ref_name (dget nkvs "$ref")
      if depth < 2 then
        fbind (resolve_schemaF comps fuel ref (visited ++ [schema_name]) (depth + 1))
          (fun child => fret (childAttrs child))
      else fret [refCollapsed ref]
    else fret []
termination_by structural fuel _ _ _ _ => fuel

/-- Fueled mirror of `array_part`. -/
def array_partF (comps : List (String × J)) : Nat → String → List String → Nat →
    List (String × J) → J → List J → Option (Option (J × List J))
  | 0, _, _, _, _, _, _ => none
  | fuel + 1, schema_name, visited, depth, nkvs, ptype0, children0 =>
    if isStrEq ptype0 "array" then
      let items := dgetD nkvs "items" (.obj [])
      match containsRefKey items with
      | none => some none
      | some true =>
          fbind (flift (subscriptRef items)) (fun irefv =>
          let iref := ref_name irefv
          if depth < 2 then
            fbind (resolve_schemaF comps fuel iref (visited ++ [schema_name]) (depth + 1))
              (fun child => fret (J.str ("array of " ++ iref), childAttrs child))
          else
            fret (J.str ("array of " ++ iref), [refCollapsed iref]))
      | some false =>
          match items with
          | .obj ikvs =>
              let pt := J.str ("array of " ++ pyStr (dgetD ikvs "type" (.str "object")))
              match dget ikvs "properties" with
              | .obj pkvs =>
                  if (J.obj pkvs).truthy then
                    fbind (build_attrsF comps fuel schema_name visited depth pkvs)
                      (fun subs => fret (pt, children0 ++ subs))
                  else fret (pt, children0)
              | pv => if pv.truthy then some none else fret (pt, children0)
          | _ => some none
    else fret (ptype0, children0)
termination_by structural fuel _ _ _ _ _ _ => fuel

/-- Fueled mirror of `resolve_allOf`. -/
def resolve_allOfF (comps : List (String × J)) : Nat → String → List String → Nat →
    List J → Option (Option (List J))
  | 0, _, _, _, _ => none
  | _ + 1, _, _, _, [] => fret []
  | fuel + 1, schema_name, visited, depth, member :: rest =>
      fbind (flift (containsRefKey member)) (fun hasR =>
      fbind (if hasR then
               fbind (flift (subscriptRef member)) (fun bv =>
               let base := ref_name bv
               if depth < 2 then
                 fbind (resolve_schemaF comps fuel base (visited ++ [schema_name]) (depth + 1))
                   (fun child =>
                 fret [J.obj [("name", .str ("(allOf) " ++ clean_name base)),
                   ("type", .str "object"),
                   ("description", .str ("Inherits from " ++ base ++ ".")),
                   ("examples", .arr []),
                   ("children", .arr (childAttrs child))]])
               else
                 fret [J.obj [("name", .str ("(allOf) " ++ clean_name base)),
                   ("type", .str "object"),
                   ("description", .str "Inheritance (collapsed)."),
                   ("examples", .arr []),
                   ("children", .arr [])]])
             else fret ([] : List J)) (fun here =>
      fbind (resolve_allOfF comps fuel schema_name visited depth rest) (fun r =>
      fret (here ++ r))))
termination_by structural fuel _ _ _ _ => fuel

/-- Fueled mirror of `build_attrs`. -/
def build_attrsF (comps : List (String × J)) : Nat → String → List String → Nat →
    List (String × J) → Option (Option (List J))
  | 0, _, _, _, _ => none
  | _ + 1, _, _, _, [] => fret []
  | fuel + 1, owner, visited, dpth, (subname, subnode) :: rest =>
      fbind (build_attrF comps fuel subname subnode owner visited dpth) (fun a =>
      fbind (build_attrsF comps fuel owner visited dpth rest) (fun r =>
      fret (a :: r)))
termination_by structural fuel _ _ _ _ => fuel

/-- Fueled mirror of `build_attr`. -/
def build_attrF (comps : List (String × J)) : Nat → String → J → String →
    List String → Nat → Option (Option J)
  | 0, _, _, _, _, _ => none
  | fuel + 1, name, node, owner, visited_t, dpth =>
    match node with
    | .obj nkvs =>
        let ptype0 := dgetD nkvs "type" (.str "object")
        let description := normalize_desc (dget nkvs "description") (.str name)
        let examples := jor (dget nkvs "examples") (.arr [])
        fbind (battr_ref_partF comps fuel owner visited_t dpth nkvs ptype0) (fun pc =>
        fbind (battr_props_partF comps fuel owner visited_t dpth nkvs pc.2) (fun children2 =>
        fbind (battr_array_partF comps fuel owner visited_t dpth nkvs pc.1 children2) (fun ptc =>
        fret (J.obj [("name", .str (clean_name name)), ("type", ptc.1),
          ("description", .str description), ("examples", wrapExamples examples),
          ("children", .arr ptc.2)]))))
    | _ => some none
termination_by structural fuel _ _ _ _ _ => fuel

/-- Fueled mirror of `battr_ref_part`. -/
def battr_ref_partF (comps : List (String × J)) : Nat → String → List String → Nat →
    List (String × J) → J → Option (Option (J × List J))
  | 0, _, _, _, _, _ => none
  | fuel + 1, owner, visited_t, dpth, nkvs, ptype0 =>
    if hasKey nkvs "$ref" then
      let r := ref_name (dget nkvs "$ref")
      fbind (if dpth < 2 then
               fbind (resolve_schemaF comps fuel r (visited_t ++ [owner]) (dpth + 1))
                 (fun child => fret (childAttrs child))
             else fret [refCollapsed r]) (fun ch =>
      fret (J.str r, ch))
    else fret (ptype0, [])
termination_by structural fuel _ _ _ _ _ => fuel

/-- Fueled mirror of `battr_props_part`. -/
def battr_props_partF (comps : List (String × J)) : Nat → String → List String → Nat →
    List (String × J) → List J → Option (Option (List J))
  | 0, _, _, _, _, _ => none
  | fuel + 1, owner, visited_t, dpth, nkvs, children1 =>
    match jGet nkvs "properties" with
    | some (.obj pkvs) =>
        if (J.obj pkvs).truthy then
          fbind (build_attrsF comps fuel owner visited_t dpth pkvs)
            (fun subs => fret (children1 ++ subs))
        else fret children1
    | some pv => if pv.truthy then some none else fret children1
    | none => fret children1
termination_by structural fuel _ _ _ _ _ => fuel

/-- Fueled mirror of `battr_array_part`. -/
def battr_array_partF (comps : List (String × J)) : Nat → String → List String → Nat →
    List (String × J) → J → List J → Option (Option (J × List J))
  | 0, _, _, _, _, _, _ => none
  | fuel + 1, owner, visited_t, dpth, nkvs, ptype1, children2 =>
    if isStrEq ptype1 "array" || isStrEq (dget nkvs "type") "array" then
      match dgetD nkvs "items" (.obj []) with
      | .obj ikvs =>
          let it_type := dgetD ikvs "type" (.str "object")
          if hasKey ikvs "$ref" then
            let r := ref_name (dget ikvs "$ref")
            fbind (if dpth < 2 then
                     fbind (resolve_schemaF comps fuel r (visited_t ++ [owner]) (dpth + 1))
                       (fun child => fret (childAttrs child))
                   else fret [refCollapsed r]) (fun ch =>
            fret (J.str ("array of " ++ r), ch))
          else fret (J.str ("array of " ++ pyStr it_type), children2)
      | _ => some none
    else fret (ptype1, children2)
termination_by structural fuel _ _ _ _ _ => fuel

end

/-- Soundness of the fueled resolver mirrors: whenever the fuel does not run
out, the mirror computes exactly the real functions' results. -/
theorem resolver_sound (comps : List (String × J)) : ∀ fuel : Nat,
    (∀ n v d res, resolve_schemaF comps fuel n v d = some res →
      resolve_schema comps n v d = res) ∧
    (∀ sn rkvs v d pl res, resolve_propsF comps fuel sn rkvs v d pl = some res →
      resolve_props comps sn rkvs v d pl = res) ∧
    (∀ sn rkvs v d nm nd res, add_propertyF comps fuel sn rkvs v d nm nd = some res →
      add_property comps sn rkvs v d nm nd = res) ∧
    (∀ sn v d nkvs res, ref_childrenF comps fuel sn v d nkvs = some res →
      ref_children comps sn v d nkvs = res) ∧
    (∀ sn v d nkvs pt ch res, array_partF comps fuel sn v d nkvs pt ch = some res →
      array_part comps sn v d nkvs pt ch = res) ∧
    (∀ sn v d ml res, resolve_allOfF comps fuel sn v d ml = some res →
      resolve_allOf comps sn v d ml = res) ∧
    (∀ ow v d pl res, build_attrsF comps fuel ow v d pl = some res →
      build_attrs comps ow v d pl = res) ∧
    (∀ nm nd ow v d res, build_attrF comps fuel nm nd ow v d = some res →
      build_attr comps nm nd ow v d = res) ∧
    (∀ ow v d nkvs pt res, battr_ref_partF comps fuel ow v d nkvs pt = some res →
      battr_ref_part comps ow v d nkvs pt = res) ∧
    (∀ ow v d nkvs ch res, battr_props_partF comps fuel ow v d nkvs ch = some res →
      battr_props_part comps ow v d nkvs ch = res) ∧
    (∀ ow v d nkvs pt ch res, battr_array_partF comps fuel ow v d nkvs pt ch = some res →
      battr_array_part comps ow v d nkvs pt ch = res) := by
  intro fuel
  induction fuel with
  | zero =>
      refine ⟨?_, ?_, ?_, ?_, ?_, ?_, ?_, ?_, ?_, ?_, ?_⟩ <;> intros <;>
        simp_all [resolve_schemaF, resolve_propsF, add_propertyF, ref_childrenF,
          array_partF, resolve_allOfF, build_attrsF, build_attrF, battr_ref_partF,
          battr_props_partF, battr_array_partF]
  | succ fuel ih =>
      obtain ⟨ih1, ih2, ih3, ih4, ih5, ih6, ih7, ih8, ih9, ih10, ih11⟩ := ih
      refine ⟨?_, ?_, ?_, ?_, ?_, ?_, ?_, ?_, ?_, ?_, ?_⟩
      -- resolve_schema
      · intro n v d res h
        simp only [resolve_schemaF] at h
        rw [resolve_schema]
        by_cases hm : n ∈ v
        · rw [if_pos hm] at h ⊢
          simp [fret] at h
          simp [← h]
        · rw [if_neg hm] at h ⊢
          cases hraw : jGet comps n with
          | none => rw [hraw] at h; simp [fret] at h; subst h; first | rfl | simp
          | some rv =>
              rw [hraw] at h
              cases rv with
              | null => simp [fret] at h; subst h; first | rfl | simp
              | bool b => simp at h; subst h; first | rfl | simp
              | num x => simp at h; subst h; first | rfl | simp
              | str s => simp at h; subst h; first | rfl | simp
              | arr xs => simp at h; subst h; first | rfl | simp
              | obj rkvs =>
                  simp only [] at h
                  simp only []
                  cases hjp : jor (dget rkvs "properties") (J.obj []) with
                  | obj pkvs =>
                      (try simp only [hjp] at h)
                      (try simp only [hjp])
                      (try simp only [] at h)
                      (try simp only [])
                      cases hps : resolve_propsF comps fuel n rkvs v d pkvs with
                      | none => rw [hps] at h; simp [fbind, flift, fret] at h
                      | some o1 =>
                          rw [hps] at h
                          rw [ih2 _ _ _ _ _ _ hps]
                          cases o1 with
                          | none => simp [fbind, flift, fret] at h; subst h; simp
                          | some propAttrs =>
                              simp only [fbind] at h
                              simp only [Option.bind_eq_bind, Option.some_bind]
                              cases hao : jGet rkvs "allOf" with
                              | none =>
                                  simp [fret, hao] at h
                                  subst h
                                  simp [hao]
                              | some av =>
                                  (try simp only [hao] at h)
                                  cases av with
                                  | arr members =>
                                      (try simp only [hao] at h)
                                      (try simp only [hao])
                                      (try simp only [] at h)
                                      (try simp only [])
                                      cases hal : resolve_allOfF comps fuel n v d members with
                                      | none => rw [hal] at h; simp [fbind, flift, fret] at h
                                      | some o2 =>
                                          rw [hal] at h
                                          rw [ih6 _ _ _ _ _ hal]
                                          cases o2 with
                                          | none => simp [fbind, flift, fret] at h; subst h; simp
                                          | some allAttrs =>
                                              simp [fbind, fret] at h
                                              subst h
                                              first | rfl | simp
                                  | null => simp [fret, hao] at h; subst h; simp [hao]
                                  | bool b => simp [fret, hao] at h; subst h; simp [hao]
                                  | num x => simp [fret, hao] at h; subst h; simp [hao]
                                  | str s => simp [fret, hao] at h; subst h; simp [hao]
                                  | obj okvs => simp [fret, hao] at h; subst h; simp [hao]
                  | null => simp [fbind, hjp] at h; subst h; simp [hjp]
                  | bool b => simp [fbind, hjp] at h; subst h; simp [hjp]
                  | num x => simp [fbind, hjp] at h; subst h; simp [hjp]
                  | str s => simp [fbind, hjp] at h; subst h; simp [hjp]
                  | arr xs => simp [fbind, hjp] at h; subst h; simp [hjp]
      -- resolve_props
      · intro sn rkvs v d pl res h
        match pl with
        | [] =>
            simp only [resolve_propsF, fret] at h
            rw [resolve_props]
            simp at h
            subst h
            first | rfl | simp
        | (pname, pnode) :: rest =>
            simp only [resolve_propsF] at h
            rw [resolve_props]
            cases ha : add_propertyF comps fuel sn rkvs v d pname pnode with
            | none => rw [ha] at h; simp [fbind, flift, fret] at h
            | some oa =>
                rw [ha] at h
                rw [ih3 _ _ _ _ _ _ _ ha]
                cases oa with
                | none => simp [fbind, flift, fret] at h; subst h; simp
                | some a =>
                    simp only [fbind] at h
                    simp only [Option.bind_eq_bind, Option.some_bind]
                    cases hb : resolve_propsF comps fuel sn rkvs v d rest with
                    | none => rw [hb] at h; simp [fbind, flift, fret] at h
                    | some ob =>
                        rw [hb] at h
                        rw [ih2 _ _ _ _ _ _ hb]
                        cases ob with
                        | none => simp [fbind, flift, fret] at h; subst h; simp
                        | some b => simp [fbind, flift, fret] at h; subst h; first | rfl | simp
      -- add_property
      · intro sn rkvs v d nm nd res h
        match nd with
        | .null => simp only [add_propertyF] at h; simp at h; subst h; simp [add_property]
        | .bool b => simp only [add_propertyF] at h; simp at h; subst h; simp [add_property]
        | .num x => simp only [add_propertyF] at h; simp at h; subst h; simp [add_property]
        | .str s => simp only [add_propertyF] at h; simp at h; subst h; simp [add_property]
        | .arr xs => simp only [add_propertyF] at h; simp at h; subst h; simp [add_property]
        | .obj nkvs =>
            simp only [add_propertyF] at h
            rw [add_property]
            cases hc : ref_childrenF comps fuel sn v d nkvs with
            | none => rw [hc] at h; simp [fbind, flift, fret] at h
            | some oc =>
                rw [hc] at h
                rw [ih4 _ _ _ _ _ hc]
                cases oc with
                | none => simp [fbind, flift, fret] at h; subst h; simp
                | some children0 =>
                    simp only [fbind] at h
                    simp only [Option.bind_eq_bind, Option.some_bind]
                    cases hp : array_partF comps fuel sn v d nkvs (dget nkvs "type") children0 with
                    | none => rw [hp] at h; simp [fbind, flift, fret] at h
                    | some op =>
                        rw [hp] at h
                        rw [ih5 _ _ _ _ _ _ _ hp]
                        cases op with
                        | none => simp [fbind, flift, fret] at h; subst h; simp
                        | some ptc => simp [fbind, flift, fret] at h; subst h; first | rfl | simp
      -- ref_children
      · intro sn v d nkvs res h
        simp only [ref_childrenF] at h
        rw [ref_children]
        by_cases hk : hasKey nkvs "$ref" = true
        · rw [if_pos hk] at h ⊢
          by_cases hd : d < 2
          · rw [if_pos hd] at h
            rw [dif_pos hd]
            cases hr : resolve_schemaF comps fuel (ref_name (dget nkvs "$ref")) (v ++ [sn]) (d + 1) with
            | none => rw [hr] at h; simp [fbind, flift, fret] at h
            | some or1 =>
                rw [hr] at h
                rw [ih1 _ _ _ _ hr]
                cases or1 with
                | none => simp [fbind, flift, fret] at h; subst h; simp
                | some child => simp [fbind, flift, fret] at h; subst h; first | rfl | simp
          · rw [if_neg hd] at h
            rw [dif_neg hd]
            simp [fret] at h
            subst h
            first | rfl | simp
        · rw [if_neg hk] at h ⊢
          simp [fret] at h
          subst h
          first | rfl | simp
      -- array_part
      · intro sn v d nkvs pt ch res h
        simp only [array_partF] at h
        rw [array_part]
        by_cases hae : isStrEq pt "array" = true
        · rw [if_pos hae] at h ⊢
          cases hcr : containsRefKey (dgetD nkvs "items" (J.obj [])) with
          | none =>
              (try simp only [hcr] at h)
              simp at h
              subst h
              simp [hcr]
          | some hb =>
              (try simp only [hcr] at h)
              (try simp only [hcr])
              cases hb with
              | true =>
                  (try simp only [] at h)
                  (try simp only [])
                  cases hsr : subscriptRef (dgetD nkvs "items" (J.obj [])) with
                  | none =>
                      (try simp only [hsr] at h)
                      simp [flift, fbind] at h
                      subst h
                      simp [hsr]
                  | some irefv =>
                      (try simp only [hsr] at h)
                      (try simp only [hsr])
                      (try simp only [flift, fbind] at h)
                      (try simp only [Option.bind_eq_bind, Option.some_bind])
                      by_cases hd : d < 2
                      · rw [if_pos hd] at h
                        rw [dif_pos hd]
                        cases hr : resolve_schemaF comps fuel (ref_name irefv) (v ++ [sn]) (d + 1) with
                        | none => rw [hr] at h; simp [fbind, flift, fret] at h
                        | some or1 =>
                            rw [hr] at h
                            rw [ih1 _ _ _ _ hr]
                            cases or1 with
                            | none => simp [fbind, flift, fret] at h; subst h; simp
                            | some child => simp [fbind, flift, fret] at h; subst h; first | rfl | simp
                      · rw [if_neg hd] at h
                        rw [dif_neg hd]
                        simp [fret] at h
                        subst h
                        first | rfl | simp
              | false =>
                  (try simp only [] at h)
                  (try simp only [])
                  cases hit : dgetD nkvs "items" (J.obj []) with
                  | obj ikvs =>
                      (try simp only [hit] at h)
                      (try simp only [hit])
                      (try simp only [] at h)
                      (try simp only [])
                      cases hpv : dget ikvs "properties" with
                      | obj pkvs =>
                          (try simp only [hpv] at h)
                          (try simp only [hpv])
                          (try simp only [] at h)
                          (try simp only [])
                          by_cases htr : (J.obj pkvs).truthy = true
                          · rw [if_pos htr] at h ⊢
                            cases hba : build_attrsF comps fuel sn v d pkvs with
                            | none => rw [hba] at h; simp [fbind, flift, fret] at h
                            | some ob =>
                                rw [hba] at h
                                rw [ih7 _ _ _ _ _ hba]
                                cases ob with
                                | none => simp [fbind, flift, fret] at h; subst h; simp
                                | some subs => simp [fbind, flift, fret] at h; subst h; first | rfl | simp
                          · rw [if_neg htr] at h ⊢
                            simp [fret] at h
                            subst h
                            first | rfl | simp
                      | null =>
                          (try simp only [hpv] at h)
                          simp [fret, J.truthy] at h
                          subst h
                          simp [hpv, J.truthy]
                      | bool b =>
                          (try simp only [hpv] at h)
                          (try simp only [] at h)
                          (try simp only [])
                          by_cases htr : (J.bool b).truthy = true
                          · (try rw [if_pos htr] at h)
                            rw [if_pos htr]
                            simp at h
                            first | (subst h; rfl) | simp [← h] | simp [h]
                          · (try rw [if_neg htr] at h)
                            rw [if_neg htr]
                            simp [fret] at h
                            subst h
                            first | rfl | simp
                      | num x =>
                          (try simp only [hpv] at h)
                          (try simp only [] at h)
                          (try simp only [])
                          by_cases htr : (J.num x).truthy = true
                          · (try rw [if_pos htr] at h)
                            rw [if_pos htr]
                            simp at h
                            first | (subst h; rfl) | simp [← h] | simp [h]
                          · (try rw [if_neg htr] at h)
                            rw [if_neg htr]
                            simp [fret] at h
                            subst h
                            first | rfl | simp
                      | str s =>
                          (try simp only [hpv] at h)
                          (try simp only [] at h)
                          (try simp only [])
                          by_cases htr : (J.str s).truthy = true
                          · (try rw [if_pos htr] at h)
                            rw [if_pos htr]
                            simp at h
                            first | (subst h; rfl) | simp [← h] | simp [h]
                          · (try rw [if_neg htr] at h)
                            rw [if_neg htr]
                            simp [fret] at h
                            subst h
                            first | rfl | simp
                      | arr ys =>
                          (try simp only [hpv] at h)
                          (try simp only [] at h)
                          (try simp only [])
                          by_cases htr : (J.arr ys).truthy = true
                          · (try rw [if_pos htr] at h)
                            rw [if_pos htr]
                            simp at h
                            first | (subst h; rfl) | simp [← h] | simp [h]
                          · (try rw [if_neg htr] at h)
                            rw [if_neg htr]
                            simp [fret] at h
                            subst h
                            first | rfl | simp
                  | null => (try simp only [hit] at h); simp at h; subst h; simp [hit]
                  | bool b => (try simp only [hit] at h); simp at h; subst h; simp [hit]
                  | num x => (try simp only [hit] at h); simp at h; subst h; simp [hit]
                  | str s => (try simp only [hit] at h); simp at h; subst h; simp [hit]
                  | arr ys => (try simp only [hit] at h); simp at h; subst h; simp [hit]
        · rw [if_neg hae] at h ⊢
          simp [fret] at h
          subst h
          first | rfl | simp
      -- resolve_allOf
      · intro sn v d ml res h
        match ml with
        | [] =>
            simp only [resolve_allOfF, fret] at h
            rw [resolve_allOf]
            simp at h
            subst h
            rfl
        | member :: rest =>
            simp only [resolve_allOfF] at h
            rw [resolve_allOf]
            cases hcr : containsRefKey member with
            | none =>
                (try simp only [hcr] at h)
                simp [flift, fbind] at h
                subst h
                simp [hcr]
            | some hasR =>
                (try simp only [hcr] at h)
                (try simp only [hcr])
                (try simp only [flift, fbind] at h)
                (try simp only [Option.bind_eq_bind, Option.some_bind])
                by_cases hR : hasR = true
                · rw [if_pos hR] at h ⊢
                  cases hsr : subscriptRef member with
                  | none =>
                      (try simp only [hsr] at h)
                      simp [flift, fbind] at h
                      subst h
                      simp
                  | some bv =>
                      (try simp only [hsr] at h)
                      (try simp only [hsr])
                      (try simp only [flift, fbind] at h)
                      (try simp only [Option.bind_eq_bind, Option.some_bind])
                      by_cases hd : d < 2
                      · rw [if_pos hd] at h
                        rw [dif_pos hd]
                        cases hr : resolve_schemaF comps fuel (ref_name bv) (v ++ [sn]) (d + 1) with
                        | none => rw [hr] at h; simp [fbind, flift, fret] at h
                        | some or1 =>
                            rw [hr] at h
                            rw [ih1 _ _ _ _ hr]
                            cases or1 with
                            | none => simp [fbind, flift, fret] at h; subst h; simp
                            | some child =>
                                (try simp only [fbind] at h)
                                (try simp only [Option.bind_eq_bind, Option.some_bind])
                                cases hrest : resolve_allOfF comps fuel sn v d rest with
                                | none => rw [hrest] at h; simp [fbind, flift, fret] at h
                                | some orst =>
                                    rw [hrest] at h
                                    rw [ih6 _ _ _ _ _ hrest]
                                    cases orst with
                                    | none => simp [fbind, flift, fret] at h; subst h; simp
                                    | some rst => simp [fbind, flift, fret] at h; subst h; first | rfl | simp
                      · rw [if_neg hd] at h
                        rw [dif_neg hd]
                        (try simp only [fbind] at h)
                        (try simp only [Option.bind_eq_bind, Option.some_bind])
                        cases hrest : resolve_allOfF comps fuel sn v d rest with
                        | none => rw [hrest] at h; simp [fbind, flift, fret] at h
                        | some orst =>
                            rw [hrest] at h
                            rw [ih6 _ _ _ _ _ hrest]
                            cases orst with
                            | none => simp [fbind, flift, fret] at h; subst h; simp
                            | some rst => simp [fbind, flift, fret] at h; subst h; first | rfl | simp
                · rw [if_neg hR] at h ⊢
                  cases hrest : resolve_allOfF comps fuel sn v d rest with
                  | none => rw [hrest] at h; simp [fbind, flift, fret] at h
                  | some orst =>
                      rw [hrest] at h
                      rw [ih6 _ _ _ _ _ hrest]
                      cases orst with
                      | none => simp [fbind, flift, fret] at h; subst h; simp
                      | some rst => simp [fbind, flift, fret] at h; subst h; first | rfl | simp
      -- build_attrs
      · intro ow v d pl res h
        match pl with
        | [] =>
            simp only [build_attrsF, fret] at h
            rw [build_attrs]
            simp at h
            subst h
            first | rfl | simp
        | (subname, subnode) :: rest =>
            simp only [build_attrsF] at h
            rw [build_attrs]
            cases ha : build_attrF comps fuel subname subnode ow v d with
            | none => rw [ha] at h; simp [fbind, flift, fret] at h
            | some oa =>
                rw [ha] at h
                rw [ih8 _ _ _ _ _ _ ha]
                cases oa with
                | none => simp [fbind, flift, fret] at h; subst h; simp
                | some a =>
                    simp only [fbind] at h
                    simp only [Option.bind_eq_bind, Option.some_bind]
                    cases hb : build_attrsF comps fuel ow v d rest with
                    | none => rw [hb] at h; simp [fbind, flift, fret] at h
                    | some ob =>
                        rw [hb] at h
                        rw [ih7 _ _ _ _ _ hb]
                        cases ob with
                        | none => simp [fbind, flift, fret] at h; subst h; simp
                        | some b => simp [fbind, flift, fret] at h; subst h; first | rfl | simp
      -- build_attr
      · intro nm nd ow v d res h
        match nd with
        | .null => simp only [build_attrF] at h; simp at h; subst h; simp [build_attr]
        | .bool b => simp only [build_attrF] at h; simp at h; subst h; simp [build_attr]
        | .num x => simp only [build_attrF] at h; simp at h; subst h; simp [build_attr]
        | .str s => simp only [build_attrF] at h; simp at h; subst h; simp [build_attr]
        | .arr xs => simp only [build_attrF] at h; simp at h; subst h; simp [build_attr]
        | .obj nkvs =>
            simp only [build_attrF] at h
            rw [build_attr]
            cases hc : battr_ref_partF comps fuel ow v d nkvs (dgetD nkvs "type" (J.str "object")) with
            | none => rw [hc] at h; simp [fbind, flift, fret] at h
            | some oc =>
                rw [hc] at h
                rw [ih9 _ _ _ _ _ _ hc]
                cases oc with
                | none => simp [fbind, flift, fret] at h; subst h; simp
                | some pc =>
                    simp only [fbind] at h
                    simp only [Option.bind_eq_bind, Option.some_bind]
                    cases hq : battr_props_partF comps fuel ow v d nkvs pc.2 with
                    | none => rw [hq] at h; simp [fbind, flift, fret] at h
                    | some oq =>
                        rw [hq] at h
                        rw [ih10 _ _ _ _ _ _ hq]
                        cases oq with
                        | none => simp [fbind, flift, fret] at h; subst h; simp
                        | some children2 =>
                            simp only [fbind] at h
                            simp only [Option.bind_eq_bind, Option.some_bind]
                            cases ha : battr_array_partF comps fuel ow v d nkvs pc.1 children2 with
                            | none => rw [ha] at h; simp [fbind, flift, fret] at h
                            | some oa =>
                                rw [ha] at h
                                rw [ih11 _ _ _ _ _ _ _ ha]
                                cases oa with
                                | none => simp [fbind, flift, fret] at h; subst h; simp
                                | some ptc => simp [fbind, flift, fret] at h; subst h; first | rfl | simp
      -- battr_ref_part
      · intro ow v d nkvs pt res h
        simp only [battr_ref_partF] at h
        rw [battr_ref_part]
        by_cases hk : hasKey nkvs "$ref" = true
        · rw [if_pos hk] at h ⊢
          by_cases hd : d < 2
          · rw [if_pos hd] at h
            rw [dif_pos hd]
            cases hr : resolve_schemaF comps fuel (ref_name (dget nkvs "$ref")) (v ++ [ow]) (d + 1) with
            | none => rw [hr] at h; simp [fbind, flift, fret] at h
            | some or1 =>
                rw [hr] at h
                rw [ih1 _ _ _ _ hr]
                cases or1 with
                | none => simp [fbind, flift, fret] at h; subst h; simp
                | some child => simp [fbind, flift, fret] at h; subst h; first | rfl | simp
          · rw [if_neg hd] at h
            rw [dif_neg hd]
            simp [fbind, fret] at h
            subst h
            first | rfl | simp
        · rw [if_neg hk] at h ⊢
          simp [fret] at h
          subst h
          first | rfl | simp
      -- battr_props_part
      · intro ow v d nkvs ch res h
        simp only [battr_props_partF] at h
        rw [battr_props_part]
        cases hpp : jGet nkvs "properties" with
        | none =>
            (try simp only [hpp] at h)
            simp [fret] at h
            subst h
            first | rfl | simp
        | some pv =>
            (try simp only [hpp] at h)
            (try simp only [hpp])
            cases pv with
            | obj pkvs =>
                (try simp only [] at h)
                (try simp only [])
                by_cases htr : (J.obj pkvs).truthy = true
                · rw [if_pos htr] at h ⊢
                  cases hba : build_attrsF comps fuel ow v d pkvs with
                  | none => rw [hba] at h; simp [fbind, flift, fret] at h
                  | some ob =>
                      rw [hba] at h
                      rw [ih7 _ _ _ _ _ hba]
                      cases ob with
                      | none => simp [fbind, flift, fret] at h; subst h; simp
                      | some subs => simp [fbind, flift, fret] at h; subst h; first | rfl | simp
                · rw [if_neg htr] at h ⊢
                  simp [fret] at h
                  subst h
                  first | rfl | simp
            | null =>
                simp [fret, J.truthy] at h
                subst h
                simp [J.truthy]
            | bool b =>
                (try simp only [] at h)
                (try simp only [])
                by_cases htr : (J.bool b).truthy = true
                · (try rw [if_pos htr] at h)
                  rw [if_pos htr]
                  simp at h
                  first | (subst h; rfl) | simp [← h] | simp [h]
                · (try rw [if_neg htr] at h)
                  rw [if_neg htr]
                  simp [fret] at h
                  subst h
                  first | rfl | simp
            | num x =>
                (try simp only [] at h)
                (try simp only [])
                by_cases htr : (J.num x).truthy = true
                · (try rw [if_pos htr] at h)
                  rw [if_pos htr]
                  simp at h
                  first | (subst h; rfl) | simp [← h] | simp [h]
                · (try rw [if_neg htr] at h)
                  rw [if_neg htr]
                  simp [fret] at h
                  subst h
                  first | rfl | simp
            | str s =>
                (try simp only [] at h)
                (try simp only [])
                by_cases htr : (J.str s).truthy = true
                · (try rw [if_pos htr] at h)
                  rw [if_pos htr]
                  simp at h
                  first | (subst h; rfl) | simp [← h] | simp [h]
                · (try rw [if_neg htr] at h)
                  rw [if_neg htr]
                  simp [fret] at h
                  subst h
                  first | rfl | simp
            | arr ys =>
                (try simp only [] at h)
                (try simp only [])
                by_cases htr : (J.arr ys).truthy = true
                · (try rw [if_pos htr] at h)
                  rw [if_pos htr]
                  simp at h
                  first | (subst h; rfl) | simp [← h] | simp [h]
                · (try rw [if_neg htr] at h)
                  rw [if_neg htr]
                  simp [fret] at h
                  subst h
                  first | rfl | simp
      -- battr_array_part
      · intro ow v d nkvs pt ch res h
        simp only [battr_array_partF] at h
        rw [battr_array_part]
        by_cases hae : (isStrEq pt "array" || isStrEq (dget nkvs "type") "array") = true
        · rw [if_pos hae] at h ⊢
          cases hit : dgetD nkvs "items" (J.obj []) with
          | obj ikvs =>
              (try simp only [hit] at h)
              (try simp only [hit])
              (try simp only [] at h)
              (try simp only [])
              by_cases hk : hasKey ikvs "$ref" = true
              · rw [if_pos hk] at h ⊢
                by_cases hd : d < 2
                · rw [if_pos hd] at h
                  rw [dif_pos hd]
                  cases hr : resolve_schemaF comps fuel (ref_name (dget ikvs "$ref")) (v ++ [ow]) (d + 1) with
                  | none => rw [hr] at h; simp [fbind, flift, fret] at h
                  | some or1 =>
                      rw [hr] at h
                      rw [ih1 _ _ _ _ hr]
                      cases or1 with
                      | none => simp [fbind, flift, fret] at h; subst h; simp
                      | some child => simp [fbind, flift, fret] at h; subst h; first | rfl | simp
                · rw [if_neg hd] at h
                  rw [dif_neg hd]
                  simp [fbind, fret] at h
                  subst h
                  first | rfl | simp
              · rw [if_neg hk] at h ⊢
                simp [fret] at h
                subst h
                first | rfl | simp
          | null => (try simp only [hit] at h); simp at h; subst h; simp [hit]
          | bool b => (try simp only [hit] at h); simp at h; subst h; simp [hit]
          | num x => (try simp only [hit] at h); simp at h; subst h; simp [hit]
          | str s => (try simp only [hit] at h); simp at h; subst h; simp [hit]
          | arr ys => (try simp only [hit] at h); simp at h; subst h; simp [hit]
        · rw [if_neg hae] at h ⊢
          simp [fret] at h
          subst h
          first | rfl | simp

-- ---------- Reference index (app.py lines 281–306) ----------

/-- app.py line 289: `refs = list(set(find_all_refs(comps[name])))`.  Python's
set iteration order is unspecified, so only membership is meaningful;
`List.dedup` models the duplicate removal. -/
def references_of (comps : List (String × J)) (name : String) : Option (List String) := do
  let raw ← jGet comps name
  let l ← find_all_refs raw
  pure l.dedup

/-- The scan of app.py lines 291–296: every other schema (the entry for `name`
itself is skipped) whose raw definition mentions `name` in its `$ref`s. -/
def referenced_by_scan (name : String) : List (String × J) → Option (List String)
  | [] => pure []
  | (other, schema) :: rest =>
      if other = name then referenced_by_scan name rest
      else do
        let refs ← find_all_refs schema
        let l ← referenced_by_scan name rest
        pure (if name ∈ refs then other :: l else l)

/-- app.py lines 291–297: `referencedBy`, deduplicated through `list(set(...))`
(line 297). -/
def referenced_by (comps : List (String × J)) (name : String) : Option (List String) :=
  (referenced_by_scan name comps).map List.dedup

-- ---------- Accessors used by the claim statements ----------

/-- The keys of an attribute object, in order. -/
def objKeys (a : J) : List String :=
  match a with
  | .obj kvs => kvs.map Prod.fst
  | _ => []

/-- Field access on an attribute object (`J.null` when absent). -/
def attrField (a : J) (k : String) : J :=
  match a with
  | .obj kvs => dget kvs k
  | _ => J.null

/-- The first attribute of a resolved schema. -/
def firstAttr (t : J) : J := (childAttrs t).headD J.null

-- ---------- C5: unknown schemas ----------

/-- C5: for every schema name `N` absent from the component mapping,
`resolve(N)` returns (it never fails) the terminal node whose title is `N`,
whose description is the string `Unknown schema '<N>'.` (which contains `N`),
and whose attributes list is empty. -/
theorem C5_absent_schema_terminal (comps : List (String × J)) (N : String)
    (h : jGet comps N = none) :
    resolve_root comps N =
      some (J.obj [("title", .str N), ("type", .str "object"),
        ("description", .str ("Unknown schema '" ++ N ++ "'.")),
        ("attributes", .arr [])]) ∧
    attrField (unknownSchema N) "attributes" = J.arr [] ∧
    attrField (unknownSchema N) "description" =
      .str ("Unknown schema '" ++ N ++ "'.") := by
  refine ⟨?_, by simp [attrField, unknownSchema, dget, jGet], by simp [attrField, unknownSchema, dget, jGet]⟩
  rw [resolve_root, resolve_schema]
  simp [h, unknownSchema]

/-- Witness for C5 at a concrete input. -/
theorem C5_absent_schema_terminal_witness :
    resolve_root [("User", J.obj [])] "Ghost" =
      some (J.obj [("title", .str "Ghost"), ("type", .str "object"),
        ("description", .str ("Unknown schema '" ++ "Ghost" ++ "'.")),
        ("attributes", .arr [])]) :=
  (C5_absent_schema_terminal [("User", J.obj [])] "Ghost" (by rfl)).1

-- ---------- C2: cycle handling ----------

/-- A two-schema reference cycle: `A.properties.x.$ref = B`,
`B.properties.y.$ref = A`. -/
def cycleComps : List (String × J) :=
  [("A", J.obj [("properties", J.obj [("x", J.obj [("$ref", J.str "#/components/schemas/B")])])]),
   ("B", J.obj [("properties", J.obj [("y", J.obj [("$ref", J.str "#/components/schemas/A")])])])]

/-- C2: resolution terminates on cyclic reference graphs.  First conjunct: on
any branch where the schema name reappears in the visited path, `resolve_schema`
returns a terminal node with empty attributes whose description spells the
ordered visited path ending in the repeated name.  Second conjunct: the branch
reached inside `resolve(A)` for the cycle `A → B → A` carries exactly that
path.  Third conjunct: `resolve(A)` on the cyclic mapping terminates with a
fully determined tree (the cyclic branch contributing no children). -/
theorem C2_cycle_terminal_node :
    (∀ (comps : List (String × J)) (schema_name : String) (visited : List String) (depth : Nat),
        schema_name ∈ visited →
        resolve_schema comps schema_name visited depth =
          some (J.obj [("title", .str schema_name), ("type", .str "object"),
            ("description", .str ("Circular reference: " ++
              String.intercalate " → " (visited ++ [schema_name]))),
            ("attributes", .arr [])])) ∧
    resolve_schema cycleComps "A" ["A", "B"] 2 =
      some (J.obj [("title", .str "A"), ("type", .str "object"),
        ("description", .str "Circular reference: A → B → A"),
        ("attributes", .arr [])]) ∧
    resolve_root cycleComps "A" =
      some (J.obj [("title", .str "A"), ("type", .str "object"),
        ("description", .str "No description provided for \"A\"."),
        ("xSinceVersion", J.null), ("xFieldType", J.null), ("xTag", J.null),
        ("attributes", J.arr [J.obj [("name", .str ""), ("type", .str "object"),
          ("description", .str "No description provided for \"x\"."),
          ("examples", J.arr []),
          ("xSinceVersion", J.null), ("xFieldType", J.null), ("xTag", J.null),
          ("children", J.arr [J.obj [("name", .str "Y"), ("type", .str "object"),
            ("description", .str "No description provided for \"y\"."),
            ("examples", J.arr []),
            ("xSinceVersion", J.null), ("xFieldType", J.null), ("xTag", J.null),
            ("children", J.arr [])]])]])]) := by
  refine ⟨?_, ?_, ?_⟩
  · intro comps sn v d hmem
    rw [resolve_schema]
    simp [hmem, circularSchema]
  · exact (resolver_sound cycleComps 20).1 _ _ _ _ (by rfl)
  · exact (resolver_sound cycleComps 20).1 _ _ _ _ (by rfl)

/-- Witness for C2 at a concrete input. -/
theorem C2_cycle_terminal_node_witness :
    resolve_schema [] "A" ["A"] 0 =
      some (J.obj [("title", .str "A"), ("type", .str "object"),
        ("description", .str "Circular reference: A → A"),
        ("attributes", .arr [])]) :=
  C2_cycle_terminal_node.1 [] "A" ["A"] 0 (by decide)

-- ---------- Shape of the produced attributes ----------

/-- Every attribute appended by `add_property` (app.py lines 136–145) has
exactly the eight fields `name`, `type`, `description`, `examples`,
`xSinceVersion`, `xFieldType`, `xTag`, `children`, with the field values as
computed by the surrounding code. -/
theorem add_property_shape {comps : List (String × J)} {sn : String}
    {rkvs : List (String × J)} {v : List String} {d : Nat} {nm : String}
    {nd : J} {a : J}
    (h : add_property comps sn rkvs v d nm nd = some a) :
    ∃ (nkvs : List (String × J)) (ptc : J × List J), nd = J.obj nkvs ∧
      a = J.obj [("name", .str (clean_name nm)),
        ("type", jor ptc.1 (.str "object")),
        ("description", .str (normalize_desc (dget nkvs "description") (.str nm))),
        ("examples", wrapExamples (jor (dget nkvs "examples") (.arr []))),
        ("xSinceVersion", jor (dget nkvs "x-since-version") (dget rkvs "x-since-version")),
        ("xFieldType", jor (dget nkvs "x-field-type") (dget rkvs "x-field-type")),
        ("xTag", jor (dget nkvs "x-tag") (dget rkvs "x-tag")),
        ("children", .arr ptc.2)] := by
  match nd with
  | .null => simp [add_property] at h
  | .bool b => simp [add_property] at h
  | .num x => simp [add_property] at h
  | .str s => simp [add_property] at h
  | .arr xs => simp [add_property] at h
  | .obj nkvs =>
      rw [add_property] at h
      simp only [Option.bind_eq_bind, Option.bind_eq_some] at h
      obtain ⟨c0, hc0, ptc, hptc, hfin⟩ := h
      refine ⟨nkvs, ptc, rfl, ?_⟩
      simpa using hfin.symm

/-- Every attribute built by `build_attr` (app.py lines 180–186) has exactly
the five fields `name`, `type`, `description`, `examples`, `children`. -/
theorem build_attr_shape {comps : List (String × J)} {nm : String} {nd : J}
    {ow : String} {v : List String} {d : Nat} {a : J}
    (h : build_attr comps nm nd ow v d = some a) :
    ∃ (nkvs : List (String × J)) (ptc : J × List J), nd = J.obj nkvs ∧
      a = J.obj [("name", .str (clean_name nm)), ("type", ptc.1),
        ("description", .str (normalize_desc (dget nkvs "description") (.str nm))),
        ("examples", wrapExamples (jor (dget nkvs "examples") (.arr []))),
        ("children", .arr ptc.2)] := by
  match nd with
  | .null => simp [build_attr] at h
  | .bool b => simp [build_attr] at h
  | .num x => simp [build_attr] at h
  | .str s => simp [build_attr] at h
  | .arr xs => simp [build_attr] at h
  | .obj nkvs =>
      rw [build_attr] at h
      simp only [Option.bind_eq_bind, Option.bind_eq_some] at h
      obtain ⟨pc, hpc, c2, hc2, ptc, hptc, hfin⟩ := h
      refine ⟨nkvs, ptc, rfl, ?_⟩
      simpa using hfin.symm

-- ---------- C10: prefix-only property names ----------

/-- C10: each of the four recognized prefixes (`definedAt`, `is`, `has`, `x`),
given as the whole property name, normalizes to the empty string under
`clean_name`, and consequently every attribute that `add_property` appends for
such a property name carries `name = ""` at the public interface. -/
theorem C10_prefix_only_names_empty :
    (clean_name "definedAt" = "" ∧ clean_name "is" = "" ∧
     clean_name "has" = "" ∧ clean_name "x" = "") ∧
    (∀ nm ∈ ["definedAt", "is", "has", "x"],
      ∀ comps sn rkvs v d nd a,
        add_property comps sn rkvs v d nm nd = some a →
        attrField a "name" = J.str "") := by
  refine ⟨by decide, ?_⟩
  intro nm hnm comps sn rkvs v d nd a h
  obtain ⟨nkvs, ptc, hnd, ha⟩ := add_property_shape h
  subst ha
  have hc : clean_name nm = "" := by
    fin_cases hnm <;> decide
  simp [attrField, dget, jGet, hc]

/-- Concrete instance of `C10_prefix_only_names_empty`: the property name
`has` on a plain string-typed node yields an attribute named `""`. -/
theorem C10_prefix_only_names_empty_witness :
    ("has" ∈ ["definedAt", "is", "has", "x"]) ∧
    attrField (J.obj [("name", .str ""), ("type", .str "string"),
      ("description", .str ("No description provided for \"has\".")),
      ("examples", .arr []), ("xSinceVersion", J.null),
      ("xFieldType", J.null), ("xTag", J.null),
      ("children", .arr [])]) "name" = J.str "" :=
  ⟨by decide,
   C10_prefix_only_names_empty.2 "has" (by decide) [] "S" [] [] 0
     (J.obj [("type", .str "string")]) _
     ((resolver_sound ([] : List (String × J)) 5).2.2.1 "S" [] [] 0 "has"
       (J.obj [("type", .str "string")]) _ (by rfl))⟩

-- ---------- C9: examples handling ----------

/-- The examples rule exactly as the spec words it (spec-side definition, kept
for comparison with the code): the node's value itself when present and
already a sequence, a singleton wrap when present and not a sequence
(explicitly including falsy scalars), empty when absent. -/
def examplesSpec : Option J → J
  | none => J.arr []
  | some (J.arr xs) => J.arr xs
  | some v => J.arr [v]

/-- What the code actually computes: line 104 `node.get("examples") or []`
applies Python truthiness before line 140's sequence test, so a present but
falsy value (`0`, `false`, `""`) is replaced by the empty list. -/
def examplesCode : Option J → J
  | none => J.arr []
  | some v => if v.truthy then wrapExamples v else J.arr []

/-- Lines 104 and 140 of app.py compose to `examplesCode` on the node's raw
`examples` entry. -/
theorem wrapExamples_jor_eq_examplesCode (nkvs : List (String × J)) :
    wrapExamples (jor (dget nkvs "examples") (.arr [])) =
      examplesCode (jGet nkvs "examples") := by
  cases h : jGet nkvs "examples" with
  | none => simp [dget, h, jor, J.truthy, examplesCode, wrapExamples]
  | some v =>
      by_cases ht : v.truthy = true
      · simp [dget, h, jor, ht, examplesCode]
      · simp [dget, h, jor, ht, examplesCode, wrapExamples]

/-- C9 counterexample: the property node `\x7b"examples": 0\x7d` carries a
present, falsy, non-sequence `examples` value; the spec's rule demands the
singleton `[0]`, but `add_property` produces the empty list. -/
theorem C9_examples_falsy_counterexample :
    add_property [] "S" [] [] 0 "p" (J.obj [("examples", J.num 0)]) =
      some (J.obj [("name", .str "P"), ("type", .str "object"),
        ("description", .str "No description provided for \"p\"."),
        ("examples", .arr []), ("xSinceVersion", J.null),
        ("xFieldType", J.null), ("xTag", J.null), ("children", .arr [])]) ∧
    examplesSpec (jGet [("examples", J.num 0)] "examples") = J.arr [J.num 0] ∧
    (J.arr [] : J) ≠ J.arr [J.num 0] :=
  ⟨(resolver_sound ([] : List (String × J)) 5).2.2.1 "S" [] [] 0 "p"
     (J.obj [("examples", J.num 0)]) _ (by rfl), by rfl, by simp⟩

/-- C9 (amended): for every property node, the resolved attribute's
`examples` field equals the node's `examples` value when it is present,
truthy, and already a sequence; equals a singleton wrap when it is present,
truthy, and not a sequence; and equals the empty sequence when it is absent
or falsy (so falsy scalars such as `0`, `false` or `""` yield `[]`, not a
singleton).  This holds both in `add_property` and in `build_attr`. -/
theorem C9_examples_amended :
    (∀ comps sn rkvs v d nm nkvs a,
      add_property comps sn rkvs v d nm (J.obj nkvs) = some a →
      attrField a "examples" = examplesCode (jGet nkvs "examples")) ∧
    (∀ comps nm nkvs ow v d a,
      build_attr comps nm (J.obj nkvs) ow v d = some a →
      attrField a "examples" = examplesCode (jGet nkvs "examples")) := by
  constructor
  · intro comps sn rkvs v d nm nkvs a h
    obtain ⟨nkvs0, ptc, hnd, ha⟩ := add_property_shape h
    injection hnd with hk
    subst hk
    subst ha
    simpa [attrField, dget, jGet, List.find?] using wrapExamples_jor_eq_examplesCode nkvs
  · intro comps nm nkvs ow v d a h
    obtain ⟨nkvs0, ptc, hnd, ha⟩ := build_attr_shape h
    injection hnd with hk
    subst hk
    subst ha
    simpa [attrField, dget, jGet, List.find?] using wrapExamples_jor_eq_examplesCode nkvs

/-- Concrete instance of `C9_examples_amended`: a node whose `examples` is the
sequence `[1]` keeps it verbatim. -/
theorem C9_examples_amended_witness :
    attrField (J.obj [("name", .str "P"), ("type", .str "object"),
      ("description", .str "No description provided for \"p\"."),
      ("examples", .arr [J.num 1]), ("xSinceVersion", J.null),
      ("xFieldType", J.null), ("xTag", J.null), ("children", .arr [])])
      "examples" = examplesCode (jGet [("examples", J.arr [J.num 1])] "examples") :=
  C9_examples_amended.1 [] "S" [] [] 0 "p" [("examples", J.arr [J.num 1])] _
    ((resolver_sound ([] : List (String × J)) 5).2.2.1 "S" [] [] 0 "p"
      (J.obj [("examples", J.arr [J.num 1])]) _ (by rfl))

-- ---------- C6: attribute field sets ----------

/-- A component mapping with a nested array-item property: schema `A` has
property `p : array of object`, whose items carry a property `q`. -/
def cex6comps : List (String × J) :=
  [("A", J.obj [("properties", J.obj [("p", J.obj [("type", J.str "array"),
    ("items", J.obj [("type", J.str "object"),
      ("properties", J.obj [("q", J.obj [("type", J.str "string")])])])])])])]

/-- C6 counterexample: in the tree for `cex6comps`, the nested array-item
attribute `Q` (built by `build_attr`) carries only the five fields `name`,
`type`, `description`, `examples`, `children` — `xSinceVersion`, `xFieldType`
and `xTag` are missing, so not every attribute in the output of resolve has
the eight contract fields. -/
theorem C6_fields_counterexample :
    resolve_root cex6comps "A" =
      some (J.obj [("title", .str "A"), ("type", .str "object"),
        ("description", .str "No description provided for \"A\"."),
        ("xSinceVersion", J.null), ("xFieldType", J.null), ("xTag", J.null),
        ("attributes", .arr [J.obj [("name", .str "P"),
          ("type", .str "array of object"),
          ("description", .str "No description provided for \"p\"."),
          ("examples", .arr []), ("xSinceVersion", J.null),
          ("xFieldType", J.null), ("xTag", J.null),
          ("children", .arr [J.obj [("name", .str "Q"),
            ("type", .str "string"),
            ("description", .str "No description provided for \"q\"."),
            ("examples", .arr []), ("children", .arr [])]])]])]) ∧
    objKeys (J.obj [("name", .str "Q"), ("type", .str "string"),
      ("description", .str "No description provided for \"q\"."),
      ("examples", .arr []), ("children", .arr [])]) =
      ["name", "type", "description", "examples", "children"] ∧
    "xSinceVersion" ∉ (["name", "type", "description", "examples", "children"] :
      List String) :=
  ⟨(resolver_sound cex6comps 20).1 "A" [] 0 _ (by rfl), by rfl, by decide⟩

/-- C6 (amended): the field sets are per-constructor, not uniform.  An
attribute appended by `add_property` carries exactly
`name, type, description, examples, xSinceVersion, xFieldType, xTag,
children`; an attribute built by `build_attr` (nested array-item children)
carries exactly `name, type, description, examples, children`; a collapsed
reference placeholder carries exactly `name, type, description, examples`;
and a synthetic `allOf` attribute carries exactly
`name, type, description, examples, children`. -/
theorem C6_attr_fields_amended :
    (∀ comps sn rkvs v d nm nd a,
      add_property comps sn rkvs v d nm nd = some a →
      objKeys a = ["name", "type", "description", "examples",
        "xSinceVersion", "xFieldType", "xTag", "children"]) ∧
    (∀ comps nm nd ow v d a,
      build_attr comps nm nd ow v d = some a →
      objKeys a = ["name", "type", "description", "examples", "children"]) ∧
    (∀ r, objKeys (refCollapsed r) = ["name", "type", "description",
      "examples"]) ∧
    (∀ comps sn v d ml as a, resolve_allOf comps sn v d ml = some as →
      a ∈ as →
      objKeys a = ["name", "type", "description", "examples", "children"]) := by
  refine ⟨?_, ?_, ?_, ?_⟩
  · intro comps sn rkvs v d nm nd a h
    obtain ⟨nkvs, ptc, hnd, ha⟩ := add_property_shape h
    subst ha; rfl
  · intro comps nm nd ow v d a h
    obtain ⟨nkvs, ptc, hnd, ha⟩ := build_attr_shape h
    subst ha; rfl
  · intro r; rfl
  · intro comps sn v d ml
    induction ml with
    | nil =>
        intro as a h ha
        simp only [resolve_allOf, pure, Option.some.injEq] at h
        subst h; simp at ha
    | cons member rest ih =>
        intro as a h ha
        rw [resolve_allOf] at h
        simp only [Option.bind_eq_bind, Option.bind_eq_some] at h
        obtain ⟨hasR, hhas, h2⟩ := h
        by_cases hb : hasR = true
        · rw [if_pos hb] at h2
          simp only [Option.bind_eq_bind, Option.bind_eq_some,
            Option.pure_def, Option.some_bind, Option.some.injEq] at h2
          obtain ⟨bv, hbv, h3⟩ := h2
          by_cases hdl : d < 2
          · rw [dif_pos hdl] at h3
            simp only [Option.bind_eq_bind, Option.bind_eq_some,
              Option.pure_def, Option.some_bind, Option.some.injEq,
              List.singleton_append] at h3
            obtain ⟨child, hchild, r, hr, hfin⟩ := h3
            subst hfin
            simp only [List.mem_cons] at ha
            rcases ha with rfl | hmem
            · rfl
            · exact ih r a hr hmem
          · rw [dif_neg hdl] at h3
            simp only [Option.bind_eq_bind, Option.bind_eq_some,
              Option.pure_def, Option.some_bind, Option.some.injEq,
              List.singleton_append] at h3
            obtain ⟨r, hr, hfin⟩ := h3
            subst hfin
            simp only [List.mem_cons] at ha
            rcases ha with rfl | hmem
            · rfl
            · exact ih r a hr hmem
        · rw [if_neg hb] at h2
          simp only [Option.bind_eq_bind, Option.bind_eq_some,
            Option.pure_def, Option.some_bind, Option.some.injEq,
            List.nil_append] at h2
          obtain ⟨r, hr, hfin⟩ := h2
          subst hfin
          exact ih r a hr ha

/-- Concrete instance of `C6_attr_fields_amended`: a plain string-typed nested
property yields exactly the five `build_attr` fields. -/
theorem C6_attr_fields_amended_witness :
    objKeys (J.obj [("name", .str "Q"), ("type", .str "string"),
      ("description", .str "No description provided for \"q\"."),
      ("examples", .arr []), ("children", .arr [])]) =
      ["name", "type", "description", "examples", "children"] :=
  C6_attr_fields_amended.2.1 [] "q" (J.obj [("type", J.str "string")]) "A" [] 0 _
    ((resolver_sound ([] : List (String × J)) 5).2.2.2.2.2.2.2.1 "q"
      (J.obj [("type", J.str "string")]) "A" [] 0 _ (by rfl))

-- ---------- C7: bare-reference property types ----------

/-- A component mapping whose schema `A` has a single bare-reference
property `p` pointing at schema `B`. -/
def cex7comps : List (String × J) :=
  [("A", J.obj [("properties", J.obj [("p",
      J.obj [("$ref", J.str "#/components/schemas/B")])])]),
   ("B", J.obj [])]

/-- C7 counterexample: for the top-level bare-reference property `p` of
`cex7comps`, the resolved attribute's type is `"object"`, not the referenced
schema's name `"B"` — `add_property` never overwrites `ptype` in its `$ref`
branch, so the claim fails for top-level properties. -/
theorem C7_bare_ref_counterexample :
    resolve_root cex7comps "A" =
      some (J.obj [("title", .str "A"), ("type", .str "object"),
        ("description", .str "No description provided for \"A\"."),
        ("xSinceVersion", J.null), ("xFieldType", J.null), ("xTag", J.null),
        ("attributes", .arr [J.obj [("name", .str "P"),
          ("type", .str "object"),
          ("description", .str "No description provided for \"p\"."),
          ("examples", .arr []), ("xSinceVersion", J.null),
          ("xFieldType", J.null), ("xTag", J.null),
          ("children", .arr [])]])]) ∧
    attrField (J.obj [("name", .str "P"), ("type", .str "object"),
      ("description", .str "No description provided for \"p\"."),
      ("examples", .arr []), ("xSinceVersion", J.null),
      ("xFieldType", J.null), ("xTag", J.null),
      ("children", .arr [])]) "type" = J.str "object" ∧
    (J.str "object" : J) ≠ J.str "B" :=
  ⟨(resolver_sound cex7comps 20).1 "A" [] 0 _ (by rfl), by rfl, by simp⟩

/-- C7 (amended): for a property node carrying only a `$ref`, the resolved
type depends on the builder.  `add_property` (top-level properties) leaves
`ptype` untouched in its `$ref` branch, so the attribute's type is the
default `"object"`; `build_attr` (nested array-item object properties) does
overwrite the type with the referenced schema's name (provided that name is
not the literal `"array"`, which would instead trigger the array branch). -/
theorem C7_bare_ref_type_amended :
    (∀ comps sn rkvs v d nm rv a,
      add_property comps sn rkvs v d nm (J.obj [("$ref", rv)]) = some a →
      attrField a "type" = J.str "object") ∧
    (∀ comps nm rv ow v d a, ref_name rv ≠ "array" →
      build_attr comps nm (J.obj [("$ref", rv)]) ow v d = some a →
      attrField a "type" = J.str (ref_name rv)) := by
  constructor
  · intro comps sn rkvs v d nm rv a h
    rw [add_property] at h
    simp only [Option.bind_eq_bind, Option.bind_eq_some, Option.pure_def,
      Option.some.injEq] at h
    obtain ⟨ch, hch, ptc, hptc, hfin⟩ := h
    have hdt : dget [("$ref", rv)] "type" = J.null := rfl
    rw [hdt] at hptc
    rw [array_part] at hptc
    rw [if_neg (by simp [isStrEq])] at hptc
    simp only [Option.pure_def, Option.some.injEq] at hptc
    subst hptc
    subst hfin
    simp [attrField, dget, jGet, List.find?, jor, J.truthy]
  · intro comps nm rv ow v d a hr h
    rw [build_attr] at h
    simp only [Option.bind_eq_bind, Option.bind_eq_some, Option.pure_def,
      Option.some.injEq] at h
    obtain ⟨pc, hpc, c2, hc2, ptc, hptc, hfin⟩ := h
    have hk : hasKey [("$ref", rv)] "$ref" = true := rfl
    have hdr : dget [("$ref", rv)] "$ref" = rv := rfl
    have hpc1 : pc.1 = J.str (ref_name rv) := by
      rw [battr_ref_part, if_pos hk, hdr] at hpc
      by_cases hdl : d < 2
      · rw [dif_pos hdl] at hpc
        simp only [Option.bind_eq_bind, Option.bind_eq_some, Option.pure_def,
          Option.some_bind, Option.some.injEq] at hpc
        obtain ⟨child, hchild, hpcfin⟩ := hpc
        subst hpcfin; rfl
      · rw [dif_neg hdl] at hpc
        simp only [Option.bind_eq_bind, Option.pure_def, Option.some_bind,
          Option.some.injEq] at hpc
        subst hpc; rfl
    rw [battr_array_part] at hptc
    rw [if_neg ?hcond] at hptc
    case hcond =>
      have hdt : dget [("$ref", rv)] "type" = J.null := rfl
      simp [isStrEq, hdt, hpc1, hr]
    simp only [Option.pure_def, Option.some.injEq] at hptc
    subst hptc
    subst hfin
    simp [attrField, dget, jGet, List.find?, hpc1]

/-- Concrete instance of `C7_bare_ref_type_amended`: a nested bare-reference
node pointing at `#/components/schemas/B` gets type `"B"` from `build_attr`. -/
theorem C7_bare_ref_type_amended_witness :
    ref_name (J.str "#/components/schemas/B") ≠ "array" ∧
    attrField (J.obj [("name", .str "P"), ("type", .str "B"),
      ("description", .str "No description provided for \"p\"."),
      ("examples", .arr []), ("children", .arr [])]) "type" =
      J.str (ref_name (J.str "#/components/schemas/B")) :=
  ⟨by decide,
   C7_bare_ref_type_amended.2 [] "p" (J.str "#/components/schemas/B") "A" [] 0 _
     (by decide)
     ((resolver_sound ([] : List (String × J)) 10).2.2.2.2.2.2.2.1 "p"
       (J.obj [("$ref", J.str "#/components/schemas/B")]) "A" [] 0 _ (by rfl))⟩

-- ---------- C3: referencedBy versus referencesOf ----------

/-- On a mapping with no duplicate keys, `d.get(k)` returns exactly the
entries of the mapping. -/
theorem jGet_eq_iff_mem :
    ∀ (comps : List (String × J)), (comps.map Prod.fst).Nodup →
      ∀ Y s, (jGet comps Y = some s ↔ (Y, s) ∈ comps) := by
  intro comps
  induction comps with
  | nil => intro _ Y s; simp [jGet]
  | cons p rest ih =>
      obtain ⟨k, v⟩ := p
      intro hnd Y s
      simp only [List.map_cons, List.nodup_cons] at hnd
      obtain ⟨hk, hnd'⟩ := hnd
      by_cases hky : k = Y
      · subst hky
        rw [jGet, List.find?_cons_of_pos _ (by simp)]
        simp only [Option.map_some', Option.some.injEq]
        constructor
        · rintro rfl; exact List.mem_cons_self _ _
        · intro hmem
          rcases List.mem_cons.mp hmem with heq | hmem'
          · injection heq with h1 h2; exact h2.symm
          · exact absurd (List.mem_map_of_mem Prod.fst hmem') hk
      · rw [jGet, List.find?_cons_of_neg _ (by simpa using hky)]
        have hrest := ih hnd' Y s
        rw [jGet] at hrest
        rw [hrest]
        constructor
        · exact fun hmem => List.mem_cons_of_mem _ hmem
        · intro hmem
          rcases List.mem_cons.mp hmem with heq | hmem'
          · injection heq with h1 h2; exact absurd h1.symm hky
          · exact hmem'

/-- Membership in the `referencedBy` scan (app.py lines 292–296): a schema
name `Y` is collected exactly when some entry `(Y, s)` of the scanned list
has `Y ≠ X` and mentions `X` among its `$ref`s. -/
theorem referenced_by_scan_mem (X : String) :
    ∀ comps l, referenced_by_scan X comps = some l →
      ∀ Y, Y ∈ l ↔ ∃ s refs, (Y, s) ∈ comps ∧ Y ≠ X ∧
        find_all_refs s = some refs ∧ X ∈ refs := by
  intro comps
  induction comps with
  | nil =>
      intro l h Y
      simp only [referenced_by_scan, Option.pure_def, Option.some.injEq] at h
      subst h
      simp
  | cons p rest ih =>
      obtain ⟨other, schema⟩ := p
      intro l h Y
      rw [referenced_by_scan] at h
      by_cases ho : other = X
      · rw [if_pos ho] at h
        subst ho
        rw [ih l h Y]
        constructor
        · rintro ⟨s, refs, hmem, hYX, hfr, hXr⟩
          exact ⟨s, refs, List.mem_cons_of_mem _ hmem, hYX, hfr, hXr⟩
        · rintro ⟨s, refs, hmem, hYX, hfr, hXr⟩
          rcases List.mem_cons.mp hmem with heq | hmem'
          · injection heq with h1 h2
            exact absurd h1 hYX
          · exact ⟨s, refs, hmem', hYX, hfr, hXr⟩
      · rw [if_neg ho] at h
        simp only [Option.bind_eq_bind, Option.bind_eq_some, Option.pure_def,
          Option.some.injEq] at h
        obtain ⟨refs, hrefs, l', hl', hfin⟩ := h
        subst hfin
        by_cases hXr : X ∈ refs
        · rw [if_pos hXr]
          simp only [List.mem_cons]
          constructor
          · rintro (rfl | hmem)
            · exact ⟨schema, refs, Or.inl rfl, ho, hrefs, hXr⟩
            · obtain ⟨s, refs', hmem', hYX, hfr, hXr'⟩ := (ih l' hl' Y).mp hmem
              exact ⟨s, refs', Or.inr hmem', hYX, hfr, hXr'⟩
          · rintro ⟨s, refs', hmem, hYX, hfr, hXr'⟩
            rcases hmem with heq | hmem'
            · injection heq with h1 h2
              exact Or.inl h1
            · exact Or.inr ((ih l' hl' Y).mpr ⟨s, refs', hmem', hYX, hfr, hXr'⟩)
        · rw [if_neg hXr]
          rw [ih l' hl' Y]
          constructor
          · rintro ⟨s, refs', hmem, hYX, hfr, hXr'⟩
            exact ⟨s, refs', List.mem_cons_of_mem _ hmem, hYX, hfr, hXr'⟩
          · rintro ⟨s, refs', hmem, hYX, hfr, hXr'⟩
            rcases List.mem_cons.mp hmem with heq | hmem'
            · injection heq with h1 h2
              subst h1; subst h2
              rw [hrefs] at hfr
              injection hfr with h3
              subst h3
              exact absurd hXr' hXr
            · exact ⟨s, refs', hmem', hYX, hfr, hXr'⟩

/-- A schema that references itself. -/
def cex3comps : List (String × J) :=
  [("A", J.obj [("properties", J.obj [("s",
      J.obj [("$ref", J.str "#/components/schemas/A")])])])]

/-- C3 counterexample: for the self-referencing schema `A` of `cex3comps`
(the case `X = Y = "A"`), `A` is in `referencesOf(A)` but the `referencedBy`
scan skips the schema's own entry, so `A ∉ referencedBy(A)` — the inverse
relation fails on the diagonal. -/
theorem C3_inverse_counterexample :
    references_of cex3comps "A" = some ["A"] ∧
    referenced_by cex3comps "A" = some [] ∧
    ("A" ∈ (["A"] : List String)) ∧ ("A" ∉ ([] : List String)) := by
  have hA : find_all_refs (J.obj [("properties", J.obj [("s",
      J.obj [("$ref", J.str "#/components/schemas/A")])])]) = some ["A"] :=
    (refs_family_sound 20).1 _ _ (by rfl)
  refine ⟨?_, ?_, by decide, by decide⟩
  · simp only [references_of, Option.bind_eq_bind]
    rw [show jGet cex3comps "A" = some (J.obj [("properties", J.obj [("s",
        J.obj [("$ref", J.str "#/components/schemas/A")])])]) from rfl]
    rw [Option.some_bind, hA, Option.some_bind]
    decide
  · simp [referenced_by, referenced_by_scan, cex3comps]

/-- C3 (amended): restricted to distinct names, `referencedBy` is the inverse
of `referencesOf`: on a mapping with no duplicate keys, for `X ≠ Y` with `Y`
present, `Y ∈ referencedBy(X)` iff `X ∈ referencesOf(Y)`.  On the diagonal
the relation instead fails deliberately: a schema never appears in its own
`referencedBy`, even when it references itself. -/
theorem C3_referenced_by_amended :
    (∀ comps X Y rawY rb ro, (comps.map Prod.fst).Nodup → X ≠ Y →
      jGet comps Y = some rawY →
      referenced_by comps X = some rb →
      references_of comps Y = some ro →
      (Y ∈ rb ↔ X ∈ ro)) ∧
    (∀ comps X rb, referenced_by comps X = some rb → X ∉ rb) := by
  constructor
  · intro comps X Y rawY rb ro hnd hXY hY hrb hro
    rw [referenced_by] at hrb
    rcases Option.map_eq_some'.mp hrb with ⟨l, hl, hdl⟩
    subst hdl
    rw [references_of] at hro
    simp only [Option.bind_eq_bind, hY, Option.some_bind, Option.bind_eq_some,
      Option.pure_def, Option.some.injEq] at hro
    obtain ⟨refsY, hrefsY, hro'⟩ := hro
    subst hro'
    rw [List.mem_dedup, List.mem_dedup]
    rw [referenced_by_scan_mem X comps l hl Y]
    constructor
    · rintro ⟨s, refs, hmem, hYX, hfr, hXr⟩
      have hs : jGet comps Y = some s := (jGet_eq_iff_mem comps hnd Y s).mpr hmem
      rw [hY] at hs
      injection hs with hs'
      subst hs'
      rw [hrefsY] at hfr
      injection hfr with hrr
      subst hrr
      exact hXr
    · intro hXr
      exact ⟨rawY, refsY, (jGet_eq_iff_mem comps hnd Y rawY).mp hY,
        Ne.symm hXY, hrefsY, hXr⟩
  · intro comps X rb hrb
    rw [referenced_by] at hrb
    rcases Option.map_eq_some'.mp hrb with ⟨l, hl, hdl⟩
    subst hdl
    rw [List.mem_dedup]
    rw [referenced_by_scan_mem X comps l hl X]
    rintro ⟨s, refs, hmem, hXX, hfr, hXr⟩
    exact hXX rfl

/-- A two-schema mapping in which `A` references `B`. -/
def w3comps : List (String × J) :=
  [("A", J.obj [("properties", J.obj [("p", J.obj [("$ref", J.str "#/B")])])]),
   ("B", J.obj [])]

/-- Concrete instance of `C3_referenced_by_amended`: in `w3comps`,
`A ∈ referencedBy(B)` and `B ∈ referencesOf(A)` agree. -/
theorem C3_referenced_by_amended_witness :
    referenced_by w3comps "B" = some ["A"] ∧
    references_of w3comps "A" = some ["B"] ∧
    (("A" ∈ (["A"] : List String)) ↔ ("B" ∈ (["B"] : List String))) := by
  have hA : find_all_refs (J.obj [("properties", J.obj [("p",
      J.obj [("$ref", J.str "#/B")])])]) = some ["B"] :=
    (refs_family_sound 20).1 _ _ (by rfl)
  have hB : find_all_refs (J.obj ([] : List (String × J))) = some [] :=
    (refs_family_sound 20).1 _ _ (by rfl)
  have hrb : referenced_by w3comps "B" = some ["A"] := by
    simp [referenced_by, referenced_by_scan, w3comps, hA, hB]
  have hro : references_of w3comps "A" = some ["B"] := by
    simp only [references_of, Option.bind_eq_bind]
    rw [show jGet w3comps "A" = some (J.obj [("properties", J.obj [("p",
        J.obj [("$ref", J.str "#/B")])])]) from rfl]
    rw [Option.some_bind, hA, Option.some_bind]
    decide
  exact ⟨hrb, hro,
    C3_referenced_by_amended.1 w3comps "B" "A"
      (J.obj [("properties", J.obj [("p", J.obj [("$ref", J.str "#/B")])])])
      ["A"] ["B"] (by decide) (by decide) (by rfl) hrb hro⟩

/-- A schema whose sole property `pn` is a bare `$ref` with value `rv`. -/
def chainEntry (pn : String) (rv : J) : J :=
  J.obj [("properties", J.obj [(pn, J.obj [("$ref", rv)])])]

/-- One expansion step below the depth bound: a chain schema resolves to a
single attribute whose children are the attributes of the referenced
schema's resolution. -/
theorem chain_step (comps : List (String × J)) (n pn : String) (rv : J)
    (visited : List String) (depth : Nat) (child : J)
    (hn : n ∉ visited) (hget : jGet comps n = some (chainEntry pn rv))
    (hd : depth < 2)
    (hchild : resolve_schema comps (ref_name rv) (visited ++ [n]) (depth + 1) =
      some child) :
    resolve_schema comps n visited depth =
      some (J.obj [("title", .str n), ("type", .str "object"),
        ("description", .str ("No description provided for \"" ++ n ++ "\".")),
        ("xSinceVersion", J.null), ("xFieldType", J.null), ("xTag", J.null),
        ("attributes", .arr [J.obj [("name", .str (clean_name pn)),
          ("type", .str "object"),
          ("description", .str ("No description provided for \"" ++ pn ++ "\".")),
          ("examples", .arr []),
          ("xSinceVersion", J.null), ("xFieldType", J.null), ("xTag", J.null),
          ("children", .arr (childAttrs child))]])]) := by
  rw [resolve_schema, if_neg hn, hget, chainEntry]
  simp only []
  rw [show jor (dget [("properties", J.obj [(pn, J.obj [("$ref", rv)])])]
      "properties") (J.obj []) = J.obj [(pn, J.obj [("$ref", rv)])] from rfl]
  simp only []
  simp only [resolve_props]
  rw [add_property]
  rw [ref_children]
  rw [if_pos (show hasKey [("$ref", rv)] "$ref" = true from rfl)]
  rw [dif_pos hd]
  rw [show ref_name (dget [("$ref", rv)] "$ref") = ref_name rv from rfl]
  rw [hchild]
  simp only [Option.bind_eq_bind, Option.some_bind, Option.pure_def]
  rw [array_part]
  rw [if_neg (by simp [isStrEq, dget, jGet, List.find?])]
  simp only [Option.bind_eq_bind, Option.some_bind, Option.pure_def]
  rfl

/-- At the depth bound the chain schema's reference is not followed: the
single attribute's children collapse to the `"(ref) <name>"` placeholder
with description `"Reference (collapsed)"`. -/
theorem chain_collapse (comps : List (String × J)) (n pn : String) (rv : J)
    (visited : List String) (depth : Nat)
    (hn : n ∉ visited) (hget : jGet comps n = some (chainEntry pn rv))
    (hd : ¬ depth < 2) :
    resolve_schema comps n visited depth =
      some (J.obj [("title", .str n), ("type", .str "object"),
        ("description", .str ("No description provided for \"" ++ n ++ "\".")),
        ("xSinceVersion", J.null), ("xFieldType", J.null), ("xTag", J.null),
        ("attributes", .arr [J.obj [("name", .str (clean_name pn)),
          ("type", .str "object"),
          ("description", .str ("No description provided for \"" ++ pn ++ "\".")),
          ("examples", .arr []),
          ("xSinceVersion", J.null), ("xFieldType", J.null), ("xTag", J.null),
          ("children", .arr [refCollapsed (ref_name rv)])]])]) := by
  rw [resolve_schema, if_neg hn, hget, chainEntry]
  simp only []
  rw [show jor (dget [("properties", J.obj [(pn, J.obj [("$ref", rv)])])]
      "properties") (J.obj []) = J.obj [(pn, J.obj [("$ref", rv)])] from rfl]
  simp only []
  simp only [resolve_props]
  rw [add_property]
  rw [ref_children]
  rw [if_pos (show hasKey [("$ref", rv)] "$ref" = true from rfl)]
  rw [dif_neg hd]
  simp only [Option.bind_eq_bind, Option.some_bind, Option.pure_def]
  rw [array_part]
  rw [if_neg (by simp [isStrEq, dget, jGet, List.find?])]
  simp only [Option.bind_eq_bind, Option.some_bind, Option.pure_def]
  rfl

/-- C1: for a chain of four distinct schemas, each of whose sole property is
a `$ref` to the next, resolve on the first schema expands exactly two
named-reference hops — the attributes of the second and third schemas appear
fully expanded as nested children — and at the depth bound collapses the
remaining reference to the fourth schema into a single placeholder child
named `"(ref) <name>"` with description `"Reference (collapsed)"`, without
recursing into it. -/
theorem C1_depth_bound_chain (comps : List (String × J))
    (a b c d pa pb pc : String) (ra rb rc dnode : J)
    (hab : a ≠ b) (hac : a ≠ c) (had : a ≠ d)
    (hbc : b ≠ c) (hbd : b ≠ d) (hcd : c ≠ d)
    (hga : jGet comps a = some (chainEntry pa ra))
    (hgb : jGet comps b = some (chainEntry pb rb))
    (hgc : jGet comps c = some (chainEntry pc rc))
    (hgd : jGet comps d = some dnode)
    (hra : ref_name ra = b) (hrb : ref_name rb = c) (hrc : ref_name rc = d) :
    resolve_root comps a =
      some (J.obj [("title", .str a), ("type", .str "object"),
        ("description", .str ("No description provided for \"" ++ a ++ "\".")),
        ("xSinceVersion", J.null), ("xFieldType", J.null), ("xTag", J.null),
        ("attributes", .arr [J.obj [("name", .str (clean_name pa)),
          ("type", .str "object"),
          ("description", .str ("No description provided for \"" ++ pa ++ "\".")),
          ("examples", .arr []),
          ("xSinceVersion", J.null), ("xFieldType", J.null), ("xTag", J.null),
          ("children", .arr [J.obj [("name", .str (clean_name pb)),
            ("type", .str "object"),
            ("description", .str ("No description provided for \"" ++ pb ++ "\".")),
            ("examples", .arr []),
            ("xSinceVersion", J.null), ("xFieldType", J.null), ("xTag", J.null),
            ("children", .arr [J.obj [("name", .str (clean_name pc)),
              ("type", .str "object"),
              ("description", .str ("No description provided for \"" ++ pc ++ "\".")),
              ("examples", .arr []),
              ("xSinceVersion", J.null), ("xFieldType", J.null), ("xTag", J.null),
              ("children", .arr [J.obj [("name", .str ("(ref) " ++ d)),
                ("type", .str "object"),
                ("description", .str "Reference (collapsed)"),
                ("examples", .arr [])]])]])]])]])]) := by
  have h3 : resolve_schema comps c [a, b] 2 =
      some (J.obj [("title", .str c), ("type", .str "object"),
        ("description", .str ("No description provided for \"" ++ c ++ "\".")),
        ("xSinceVersion", J.null), ("xFieldType", J.null), ("xTag", J.null),
        ("attributes", .arr [J.obj [("name", .str (clean_name pc)),
          ("type", .str "object"),
          ("description", .str ("No description provided for \"" ++ pc ++ "\".")),
          ("examples", .arr []),
          ("xSinceVersion", J.null), ("xFieldType", J.null), ("xTag", J.null),
          ("children", .arr [refCollapsed (ref_name rc)])]])]) :=
    chain_collapse comps c pc rc [a, b] 2
      (by simp [Ne.symm hac, Ne.symm hbc]) hgc (by omega)
  have h2 := chain_step comps b pb rb [a] 1 _
    (by simp [Ne.symm hab]) hgb (by omega)
    (by rw [hrb]; exact h3)
  have h1 := chain_step comps a pa ra [] 0 _
    (by simp) hga (by omega)
    (by rw [hra]; exact h2)
  rw [resolve_root, h1, hrc]
  rfl

/-- A four-schema chain `A → B → C → D`. -/
def c1comps : List (String × J) :=
  [("A", chainEntry "p" (J.str "#/components/schemas/B")),
   ("B", chainEntry "q" (J.str "#/components/schemas/C")),
   ("C", chainEntry "r" (J.str "#/components/schemas/D")),
   ("D", J.obj [])]

/-- Concrete instance of `C1_depth_bound_chain` on the chain
`A → B → C → D`. -/
theorem C1_depth_bound_chain_witness :
    resolve_root c1comps "A" =
      some (J.obj [("title", .str "A"), ("type", .str "object"),
        ("description", .str "No description provided for \"A\"."),
        ("xSinceVersion", J.null), ("xFieldType", J.null), ("xTag", J.null),
        ("attributes", .arr [J.obj [("name", .str "P"),
          ("type", .str "object"),
          ("description", .str "No description provided for \"p\"."),
          ("examples", .arr []),
          ("xSinceVersion", J.null), ("xFieldType", J.null), ("xTag", J.null),
          ("children", .arr [J.obj [("name", .str "Q"),
            ("type", .str "object"),
            ("description", .str "No description provided for \"q\"."),
            ("examples", .arr []),
            ("xSinceVersion", J.null), ("xFieldType", J.null), ("xTag", J.null),
            ("children", .arr [J.obj [("name", .str "R"),
              ("type", .str "object"),
              ("description", .str "No description provided for \"r\"."),
              ("examples", .arr []),
              ("xSinceVersion", J.null), ("xFieldType", J.null), ("xTag", J.null),
              ("children", .arr [J.obj [("name", .str "(ref) D"),
                ("type", .str "object"),
                ("description", .str "Reference (collapsed)"),
                ("examples", .arr [])]])]])]])]])]) :=
  C1_depth_bound_chain c1comps "A" "B" "C" "D" "p" "q" "r"
    (J.str "#/components/schemas/B") (J.str "#/components/schemas/C")
    (J.str "#/components/schemas/D") (J.obj [])
    (by decide) (by decide) (by decide) (by decide) (by decide) (by decide)
    (by rfl) (by rfl) (by rfl) (by rfl)
    (by rfl) (by rfl) (by rfl)

/-- The `description` entry of an attribute object is a non-empty string. -/
def descFieldOk (kvs : List (String × J)) : Bool :=
  match jGet kvs "description" with
  | some (.str s) => s != ""
  | _ => false

mutual

/-- Every attribute of a resolved tree, at every nesting depth, carries a
non-empty string `description`; `childrenOk` walks an attribute object's
`children` entry, `attrsDescOk` a list of attributes. -/
def attrDescOk : J → Bool
  | .obj kvs => descFieldOk kvs && childrenOk kvs
  | _ => false

def childrenOk : List (String × J) → Bool
  | [] => true
  | (k, v) :: rest =>
      (if k == "children" then
        (match v with | .arr xs => attrsDescOk xs | _ => true)
      else true) && childrenOk rest

def attrsDescOk : List J → Bool
  | [] => true
  | a :: rest => attrDescOk a && attrsDescOk rest

end

/-- The description check distributes over list append. -/
theorem attrsDescOk_append (l1 l2 : List J) :
    attrsDescOk (l1 ++ l2) = (attrsDescOk l1 && attrsDescOk l2) := by
  induction l1 with
  | nil => simp [attrsDescOk]
  | cons a rest ih => simp [attrsDescOk, ih, Bool.and_assoc]

/-- app.py lines 48–51 never return an empty string: a blank or missing
description falls back to the generated sentence. -/
theorem normalize_desc_ne_empty (dv fn : J) : normalize_desc dv fn ≠ "" := by
  have hfb : ("No description provided for \"" ++ pyStr fn ++ "\".") ≠ "" := by
    intro hc
    have hlen := congrArg String.length hc
    simp [String.length_append] at hlen
    exact absurd hlen.1.1 (by decide)
  cases dv with
  | str s =>
      rw [normalize_desc]
      by_cases hs : (pyStrip s != "") = true
      · rw [if_pos hs]
        simpa using hs
      · rw [if_neg hs]
        exact hfb
  | null => exact hfb
  | bool b => exact hfb
  | num n => exact hfb
  | arr xs => exact hfb
  | obj kvs => exact hfb

/-- An eight-field attribute literal passes the description check when its
description is non-empty and its children do. -/
theorem attrDescOk_lit8 (n1 t1 : J) (ds : String) (e1 x1 x2 x3 : J)
    (ch : List J) (hds : ds ≠ "") (hch : attrsDescOk ch = true) :
    attrDescOk (J.obj [("name", n1), ("type", t1), ("description", .str ds),
      ("examples", e1), ("xSinceVersion", x1), ("xFieldType", x2),
      ("xTag", x3), ("children", .arr ch)]) = true := by
  simp [attrDescOk, descFieldOk, childrenOk, jGet, List.find?, hch]
  simpa using hds

/-- A five-field attribute literal passes the description check when its
description is non-empty and its children do. -/
theorem attrDescOk_lit5 (n1 t1 : J) (ds : String) (e1 : J)
    (ch : List J) (hds : ds ≠ "") (hch : attrsDescOk ch = true) :
    attrDescOk (J.obj [("name", n1), ("type", t1), ("description", .str ds),
      ("examples", e1), ("children", .arr ch)]) = true := by
  simp [attrDescOk, descFieldOk, childrenOk, jGet, List.find?, hch]
  simpa using hds

/-- The collapsed-reference placeholder always passes the description
check. -/
theorem attrDescOk_refCollapsed (r : String) :
    attrDescOk (refCollapsed r) = true := by
  simp [refCollapsed, attrDescOk, descFieldOk, childrenOk, jGet, List.find?]

/-- Mutual functional induction over the resolver: every attribute list any
of its eleven functions produces passes `attrsDescOk`. -/
theorem resolver_descOk (comps : List (String × J)) :
    (∀ sn v d, ∀ t, resolve_schema comps sn v d = some t →
       attrsDescOk (childAttrs t) = true) ∧
    (∀ sn rkvs v d pl, ∀ l, resolve_props comps sn rkvs v d pl = some l →
       attrsDescOk l = true) ∧
    (∀ sn rkvs v d nm nd, ∀ a, add_property comps sn rkvs v d nm nd = some a →
       attrDescOk a = true) ∧
    (∀ sn v d nkvs pt ch, attrsDescOk ch = true →
       ∀ ptc, array_part comps sn v d nkvs pt ch = some ptc →
       attrsDescOk ptc.2 = true) ∧
    (∀ ow v d pl, ∀ l, build_attrs comps ow v d pl = some l →
       attrsDescOk l = true) ∧
    (∀ nm nd ow v d, ∀ a, build_attr comps nm nd ow v d = some a →
       attrDescOk a = true) ∧
    (∀ ow v d nkvs pt ch, attrsDescOk ch = true →
       ∀ ptc, battr_array_part comps ow v d nkvs pt ch = some ptc →
       attrsDescOk ptc.2 = true) ∧
    (∀ ow v d nkvs ch, attrsDescOk ch = true →
       ∀ l, battr_props_part comps ow v d nkvs ch = some l →
       attrsDescOk l = true) ∧
    (∀ ow v d nkvs pt, ∀ pc, battr_ref_part comps ow v d nkvs pt = some pc →
       attrsDescOk pc.2 = true) ∧
    (∀ sn v d nkvs, ∀ ch, ref_children comps sn v d nkvs = some ch →
       attrsDescOk ch = true) ∧
    (∀ sn v d ml, ∀ l, resolve_allOf comps sn v d ml = some l →
       attrsDescOk l = true) := by
  refine resolve_schema.mutual_induct comps _ _ _ _ _ _ _ _ _ _ _
    ?c1 ?c2 ?c3 ?c4 ?c5 ?c6 ?c7 ?c8 ?c9 ?c10 ?c11 ?c12 ?c13 ?c14 ?c15 ?c16
    ?c17 ?c18 ?c19 ?c20 ?c21 ?c22 ?c23 ?c24 ?c25 ?c26 ?c27 ?c28 ?c29 ?c30
    ?c31 ?c32 ?c33 ?c34 ?c35 ?c36 ?c37 ?c38 ?c39 ?c40
  case c1 =>
    intro sn v d hmem t h
    rw [resolve_schema, if_pos hmem] at h
    simp only [Option.some.injEq] at h
    subst h
    rfl
  case c2 =>
    intro sn v d hnm hget t h
    rw [resolve_schema, if_neg hnm, hget] at h
    simp only [Option.some.injEq] at h
    subst h
    rfl
  case c3 =>
    intro sn v d hnm hget t h
    rw [resolve_schema, if_neg hnm, hget] at h
    simp only [Option.some.injEq] at h
    subst h
    rfl
  case c4 =>
    intro sn v d hnm rkvs hget kvs hjor ih11 ih2 t h
    rw [resolve_schema, if_neg hnm, hget] at h
    (try simp only [] at h)
    rw [hjor] at h
    (try simp only [] at h)
    simp only [Option.bind_eq_bind, Option.bind_eq_some] at h
    obtain ⟨pa, hpa, h2⟩ := h
    have hpaok := ih2 pa hpa
    cases hall : jGet rkvs "allOf" with
    | none =>
        rw [hall] at h2
        (try simp only [] at h2)
        simp only [Option.bind_eq_bind, Option.some_bind, Option.pure_def,
          Option.some.injEq] at h2
        subst h2
        simp [childAttrs, jGet, List.find?, attrsDescOk_append, hpaok]
    | some av =>
        cases av with
        | arr members =>
            rw [hall] at h2
            (try simp only [] at h2)
            simp only [Option.bind_eq_bind, Option.bind_eq_some,
              Option.pure_def, Option.some.injEq] at h2
            obtain ⟨aa, haa, hfin⟩ := h2
            subst hfin
            simp [childAttrs, jGet, List.find?, attrsDescOk_append, hpaok,
              ih11 members aa haa]
        | null =>
            rw [hall] at h2
            (try simp only [] at h2)
            simp only [Option.bind_eq_bind, Option.some_bind, Option.pure_def,
              Option.some.injEq] at h2
            subst h2
            simp [childAttrs, jGet, List.find?, attrsDescOk_append, hpaok]
        | bool b =>
            rw [hall] at h2
            (try simp only [] at h2)
            simp only [Option.bind_eq_bind, Option.some_bind, Option.pure_def,
              Option.some.injEq] at h2
            subst h2
            simp [childAttrs, jGet, List.find?, attrsDescOk_append, hpaok]
        | num x =>
            rw [hall] at h2
            (try simp only [] at h2)
            simp only [Option.bind_eq_bind, Option.some_bind, Option.pure_def,
              Option.some.injEq] at h2
            subst h2
            simp [childAttrs, jGet, List.find?, attrsDescOk_append, hpaok]
        | str st =>
            rw [hall] at h2
            (try simp only [] at h2)
            simp only [Option.bind_eq_bind, Option.some_bind, Option.pure_def,
              Option.some.injEq] at h2
            subst h2
            simp [childAttrs, jGet, List.find?, attrsDescOk_append, hpaok]
        | obj okvs =>
            rw [hall] at h2
            (try simp only [] at h2)
            simp only [Option.bind_eq_bind, Option.some_bind, Option.pure_def,
              Option.some.injEq] at h2
            subst h2
            simp [childAttrs, jGet, List.find?, attrsDescOk_append, hpaok]
  case c5 =>
    intro sn v d hnm rkvs hget hfalse ih11 t h
    rw [resolve_schema, if_neg hnm, hget] at h
    (try simp only [] at h)
    (try split at h)
    all_goals
      first
      | (rename_i pkvs2 heq; exact absurd heq (hfalse pkvs2))
      | simp at h
  case c6 =>
    intro sn v d hnm val hnull hobj hget t h
    rw [resolve_schema, if_neg hnm, hget] at h
    cases val with
    | null => exact absurd rfl hnull
    | obj rkvs => exact absurd rfl (hobj rkvs)
    | bool b => simp at h
    | num x => simp at h
    | str s => simp at h
    | arr xs => simp at h
  case c7 =>
    intro sn rkvs v d l h
    simp only [resolve_props, Option.pure_def, Option.some.injEq] at h
    subst h; rfl
  case c8 =>
    intro sn rkvs v d nm nd rest ih3 ih2 l h
    rw [resolve_props] at h
    simp only [Option.bind_eq_bind, Option.bind_eq_some, Option.pure_def,
      Option.some.injEq] at h
    obtain ⟨a, ha, r, hr, hfin⟩ := h
    subst hfin
    simp [attrsDescOk, ih3 a ha, ih2 r hr]
  case c9 =>
    intro sn rkvs v d nm kvs ptype0 ihr iha a h
    rw [add_property] at h
    simp only [Option.bind_eq_bind, Option.bind_eq_some, Option.pure_def,
      Option.some.injEq] at h
    obtain ⟨c0, hc0, ptc, hptc, hfin⟩ := h
    subst hfin
    exact attrDescOk_lit8 _ _ _ _ _ _ _ _
      (normalize_desc_ne_empty _ _)
      (iha c0 (ihr c0 hc0) ptc hptc)
  case c10 =>
    intro sn rkvs v d nm nd hfalse a h
    cases nd with
    | obj kvs => exact absurd rfl (hfalse kvs)
    | null => simp [add_property] at h
    | bool b => simp [add_property] at h
    | num x => simp [add_property] at h
    | str s => simp [add_property] at h
    | arr xs => simp [add_property] at h
  case c11 =>
    intro sn v d nkvs pt ch hstr items hcrk hch ptc h
    simp only [show items = dgetD nkvs "items" (J.obj []) from rfl] at hcrk
    rw [array_part, if_pos hstr] at h
    (try simp only [] at h)
    rw [hcrk] at h
    simp at h
  case c12 =>
    intro sn v d nkvs pt ch hstr items hcrk ihm hch ptc h
    simp only [show items = dgetD nkvs "items" (J.obj []) from rfl] at hcrk
    rw [array_part, if_pos hstr] at h
    (try simp only [] at h)
    rw [hcrk] at h
    simp only [] at h
    simp only [Option.bind_eq_bind, Option.bind_eq_some] at h
    obtain ⟨irefv, hirefv, h2⟩ := h
    by_cases hdl : d < 2
    · rw [dif_pos hdl] at h2
      simp only [Option.bind_eq_bind, Option.bind_eq_some, Option.pure_def,
        Option.some.injEq] at h2
      obtain ⟨child, hchild, hfin⟩ := h2
      subst hfin
      exact ihm irefv hdl child hchild
    · rw [dif_neg hdl] at h2
      simp only [Option.pure_def, Option.some.injEq] at h2
      subst h2
      simp [attrsDescOk, attrDescOk_refCollapsed]
  case c13 =>
    intro sn v d nkvs pt ch hstr items hcrk kvs0 hitems kvs1 hprops htr ih5
      hch ptc h
    simp only [show items = dgetD nkvs "items" (J.obj []) from rfl] at hcrk hitems
    rw [array_part, if_pos hstr] at h
    (try simp only [] at h)
    rw [hcrk] at h
    simp only [] at h
    rw [hitems] at h
    simp only [] at h
    rw [hprops] at h
    simp only [] at h
    rw [if_pos htr] at h
    simp only [Option.bind_eq_bind, Option.bind_eq_some, Option.pure_def,
      Option.some.injEq] at h
    obtain ⟨subs, hsubs, hfin⟩ := h
    subst hfin
    simp [attrsDescOk_append, hch, ih5 subs hsubs]
  case c14 =>
    intro sn v d nkvs pt ch hstr items hcrk kvs0 hitems kvs1 hprops htr
      hch ptc h
    simp only [show items = dgetD nkvs "items" (J.obj []) from rfl] at hcrk hitems
    rw [array_part, if_pos hstr] at h
    (try simp only [] at h)
    rw [hcrk] at h
    simp only [] at h
    rw [hitems] at h
    simp only [] at h
    rw [hprops] at h
    simp only [] at h
    rw [if_neg htr] at h
    simp only [Option.pure_def, Option.some.injEq] at h
    subst h
    exact hch
  case c15 =>
    intro sn v d nkvs pt ch hstr items hcrk kvs0 hitems hfalse htr hch ptc h
    simp only [show items = dgetD nkvs "items" (J.obj []) from rfl] at hcrk hitems
    rw [array_part, if_pos hstr] at h
    (try simp only [] at h)
    rw [hcrk] at h
    simp only [] at h
    rw [hitems] at h
    simp only [] at h
    cases hdp : dget kvs0 "properties" with
    | obj pkvs => exact absurd hdp (hfalse pkvs)
    | null => rw [hdp] at htr; simp [J.truthy] at htr
    | bool b =>
        rw [hdp] at h htr
        (try simp only [] at h)
        rw [if_pos htr] at h
        simp at h
    | num x =>
        rw [hdp] at h htr
        (try simp only [] at h)
        rw [if_pos htr] at h
        simp at h
    | str s =>
        rw [hdp] at h htr
        (try simp only [] at h)
        rw [if_pos htr] at h
        simp at h
    | arr xs =>
        rw [hdp] at h htr
        (try simp only [] at h)
        rw [if_pos htr] at h
        simp at h
  case c16 =>
    intro sn v d nkvs pt ch hstr items hcrk kvs0 hitems hfalse htr hch ptc h
    simp only [show items = dgetD nkvs "items" (J.obj []) from rfl] at hcrk hitems
    rw [array_part, if_pos hstr] at h
    (try simp only [] at h)
    rw [hcrk] at h
    simp only [] at h
    rw [hitems] at h
    simp only [] at h
    cases hdp : dget kvs0 "properties" with
    | obj pkvs => exact absurd hdp (hfalse pkvs)
    | null =>
        rw [hdp] at h htr
        (try simp only [] at h)
        rw [if_neg htr] at h
        simp only [Option.pure_def, Option.some.injEq] at h
        subst h
        exact hch
    | bool b =>
        rw [hdp] at h htr
        (try simp only [] at h)
        rw [if_neg htr] at h
        simp only [Option.pure_def, Option.some.injEq] at h
        subst h
        exact hch
    | num x =>
        rw [hdp] at h htr
        (try simp only [] at h)
        rw [if_neg htr] at h
        simp only [Option.pure_def, Option.some.injEq] at h
        subst h
        exact hch
    | str s =>
        rw [hdp] at h htr
        (try simp only [] at h)
        rw [if_neg htr] at h
        simp only [Option.pure_def, Option.some.injEq] at h
        subst h
        exact hch
    | arr xs =>
        rw [hdp] at h htr
        (try simp only [] at h)
        rw [if_neg htr] at h
        simp only [Option.pure_def, Option.some.injEq] at h
        subst h
        exact hch
  case c17 =>
    intro sn v d nkvs pt ch hstr items hcrk hfalse hch ptc h
    simp only [show items = dgetD nkvs "items" (J.obj []) from rfl] at hcrk hfalse
    rw [array_part, if_pos hstr] at h
    (try simp only [] at h)
    (try rw [hcrk] at h)
    (try simp only [] at h)
    simp at h
  case c18 =>
    intro sn v d nkvs pt ch hstr hch ptc h
    rw [array_part, if_neg hstr] at h
    simp only [Option.pure_def, Option.some.injEq] at h
    subst h
    exact hch
  case c19 =>
    intro ow v d l h
    simp only [build_attrs, Option.pure_def, Option.some.injEq] at h
    subst h; rfl
  case c20 =>
    intro ow v d nm nd rest ih6 ih5 l h
    rw [build_attrs] at h
    simp only [Option.bind_eq_bind, Option.bind_eq_some, Option.pure_def,
      Option.some.injEq] at h
    obtain ⟨a, ha, r, hr, hfin⟩ := h
    subst hfin
    simp [attrsDescOk, ih6 a ha, ih5 r hr]
  case c21 =>
    intro nm ow vt dpth kvs ptype0 ih9 ih8 ih7 a h
    rw [build_attr] at h
    simp only [Option.bind_eq_bind, Option.bind_eq_some, Option.pure_def,
      Option.some.injEq] at h
    obtain ⟨pc, hpc, c2, hc2, ptc, hptc, hfin⟩ := h
    subst hfin
    exact attrDescOk_lit5 _ _ _ _ _
      (normalize_desc_ne_empty _ _)
      (ih7 pc c2 (ih8 pc (ih9 pc hpc) c2 hc2) ptc hptc)
  case c22 =>
    intro nm nd ow vt dpth hfalse a h
    cases nd with
    | obj kvs => exact absurd rfl (hfalse kvs)
    | null => simp [build_attr] at h
    | bool b => simp [build_attr] at h
    | num x => simp [build_attr] at h
    | str s => simp [build_attr] at h
    | arr xs => simp [build_attr] at h
  case c23 =>
    intro ow vt dpth nkvs pt ch hcond kvs0 hitems hkref r hdl ihm hch ptc h
    rw [battr_array_part, if_pos hcond] at h
    (try simp only [] at h)
    rw [hitems] at h
    simp only [] at h
    rw [if_pos hkref] at h
    rw [dif_pos hdl] at h
    simp only [Option.bind_eq_bind, Option.bind_eq_some, Option.pure_def,
      Option.some_bind, Option.some.injEq] at h
    obtain ⟨child, hchild, hfin⟩ := h
    subst hfin
    exact ihm child hchild
  case c24 =>
    intro ow vt dpth nkvs pt ch hcond kvs0 hitems hkref hdl hch ptc h
    rw [battr_array_part, if_pos hcond] at h
    (try simp only [] at h)
    rw [hitems] at h
    simp only [] at h
    rw [if_pos hkref] at h
    rw [dif_neg hdl] at h
    simp only [Option.bind_eq_bind, Option.some_bind, Option.pure_def,
      Option.some.injEq] at h
    subst h
    simp [attrsDescOk, attrDescOk_refCollapsed]
  case c25 =>
    intro ow vt dpth nkvs pt ch hcond kvs0 hitems hkref hch ptc h
    rw [battr_array_part, if_pos hcond] at h
    (try simp only [] at h)
    rw [hitems] at h
    simp only [] at h
    rw [if_neg hkref] at h
    simp only [Option.pure_def, Option.some.injEq] at h
    subst h
    exact hch
  case c26 =>
    intro ow vt dpth nkvs pt ch hcond hfalse hch ptc h
    rw [battr_array_part, if_pos hcond] at h
    (try simp only [] at h)
    simp at h
  case c27 =>
    intro ow vt dpth nkvs pt ch hcond hch ptc h
    rw [battr_array_part, if_neg hcond] at h
    simp only [Option.pure_def, Option.some.injEq] at h
    subst h
    exact hch
  case c28 =>
    intro ow vt dpth nkvs ch pkvs hp htr ih5 hch l h
    rw [battr_props_part] at h
    split at h
    · rename_i pkvs2 heq
      rw [hp] at heq
      injection heq with e1
      injection e1 with e2
      subst e2
      rw [if_pos htr] at h
      simp only [Option.bind_eq_bind, Option.bind_eq_some, Option.pure_def,
        Option.some.injEq] at h
      obtain ⟨subs, hsubs, hfin⟩ := h
      subst hfin
      simp [attrsDescOk_append, hch, ih5 subs hsubs]
    · rename_i pv hne heq
      rw [hp] at heq
      injection heq with e1
      exact absurd e1.symm (hne pkvs)
    · rename_i heq
      rw [hp] at heq
      simp at heq
  case c29 =>
    intro ow vt dpth nkvs ch pkvs hp htr hch l h
    rw [battr_props_part] at h
    split at h
    · rename_i pkvs2 heq
      rw [hp] at heq
      injection heq with e1
      injection e1 with e2
      subst e2
      rw [if_neg htr] at h
      simp only [Option.pure_def, Option.some.injEq] at h
      subst h
      exact hch
    · rename_i pv hne heq
      rw [hp] at heq
      injection heq with e1
      exact absurd e1.symm (hne pkvs)
    · rename_i heq
      rw [hp] at heq
      simp at heq
  case c30 =>
    intro ow vt dpth nkvs ch val hfalse hp htr hch l h
    rw [battr_props_part] at h
    split at h
    · rename_i pkvs2 heq
      rw [hp] at heq
      injection heq with e1
      exact absurd e1 (hfalse pkvs2)
    · rename_i pv hne heq
      rw [hp] at heq
      injection heq with e1
      subst e1
      rw [if_pos htr] at h
      simp at h
    · rename_i heq
      rw [hp] at heq
      simp at heq
  case c31 =>
    intro ow vt dpth nkvs ch val hfalse hp htr hch l h
    rw [battr_props_part] at h
    split at h
    · rename_i pkvs2 heq
      rw [hp] at heq
      injection heq with e1
      exact absurd e1 (hfalse pkvs2)
    · rename_i pv hne heq
      rw [hp] at heq
      injection heq with e1
      subst e1
      rw [if_neg htr] at h
      simp only [Option.pure_def, Option.some.injEq] at h
      subst h
      exact hch
    · rename_i heq
      rw [hp] at heq
      simp at heq
  case c32 =>
    intro ow vt dpth nkvs ch hp hch l h
    rw [battr_props_part] at h
    split at h
    · rename_i pkvs2 heq
      rw [hp] at heq
      simp at heq
    · rename_i pv hne heq
      rw [hp] at heq
      simp at heq
    · simp only [Option.pure_def, Option.some.injEq] at h
      subst h
      exact hch
  case c33 =>
    intro ow vt dpth nkvs pt hkey r hdl ihm pc h
    rw [battr_ref_part, if_pos hkey] at h
    rw [dif_pos hdl] at h
    simp only [Option.bind_eq_bind, Option.bind_eq_some, Option.pure_def,
      Option.some_bind, Option.some.injEq] at h
    obtain ⟨child, hchild, hfin⟩ := h
    subst hfin
    exact ihm child hchild
  case c34 =>
    intro ow vt dpth nkvs pt hkey hdl pc h
    rw [battr_ref_part, if_pos hkey] at h
    rw [dif_neg hdl] at h
    simp only [Option.bind_eq_bind, Option.some_bind, Option.pure_def,
      Option.some.injEq] at h
    subst h
    simp [attrsDescOk, attrDescOk_refCollapsed]
  case c35 =>
    intro ow vt dpth nkvs pt hkey pc h
    rw [battr_ref_part, if_neg hkey] at h
    simp only [Option.pure_def, Option.some.injEq] at h
    subst h
    rfl
  case c36 =>
    intro sn v d nkvs hkey r hdl ihm ch h
    rw [ref_children, if_pos hkey] at h
    rw [dif_pos hdl] at h
    simp only [Option.bind_eq_bind, Option.bind_eq_some, Option.pure_def,
      Option.some_bind, Option.some.injEq] at h
    obtain ⟨child, hchild, hfin⟩ := h
    subst hfin
    exact ihm child hchild
  case c37 =>
    intro sn v d nkvs hkey hdl ch h
    rw [ref_children, if_pos hkey] at h
    rw [dif_neg hdl] at h
    simp only [Option.pure_def, Option.some.injEq] at h
    subst h
    simp [attrsDescOk, attrDescOk_refCollapsed]
  case c38 =>
    intro sn v d nkvs hkey ch h
    rw [ref_children, if_neg hkey] at h
    simp only [Option.pure_def, Option.some.injEq] at h
    subst h
    rfl
  case c39 =>
    intro sn v d l h
    simp only [resolve_allOf, Option.pure_def, Option.some.injEq] at h
    subst h; rfl
  case c40 =>
    intro sn v d member rest ih11 ihm l h
    rw [resolve_allOf] at h
    simp only [Option.bind_eq_bind, Option.bind_eq_some] at h
    obtain ⟨hasR, hhas, h2⟩ := h
    by_cases hb : hasR = true
    · rw [if_pos hb] at h2
      simp only [Option.bind_eq_bind, Option.bind_eq_some, Option.pure_def,
        Option.some_bind, Option.some.injEq] at h2
      obtain ⟨bv, hbv, h3⟩ := h2
      by_cases hdl : d < 2
      · rw [dif_pos hdl] at h3
        simp only [Option.bind_eq_bind, Option.bind_eq_some, Option.pure_def,
          Option.some_bind, Option.some.injEq, List.singleton_append] at h3
        obtain ⟨child, hchild, r, hr, hfin⟩ := h3
        subst hfin
        have h1 : attrDescOk (J.obj [("name",
            .str ("(allOf) " ++ clean_name (ref_name bv))),
            ("type", .str "object"),
            ("description", .str ("Inherits from " ++ ref_name bv ++ ".")),
            ("examples", .arr []),
            ("children", .arr (childAttrs child))]) = true :=
          attrDescOk_lit5 _ _ _ _ _
            (by intro hc
                have hlen := congrArg String.length hc
                simp [String.length_append] at hlen
                exact absurd hlen.1.1 (by decide))
            (ihm bv hdl child hchild)
        simp [attrsDescOk, h1, ih11 r hr]
      · rw [dif_neg hdl] at h3
        simp only [Option.bind_eq_bind, Option.bind_eq_some, Option.pure_def,
          Option.some_bind, Option.some.injEq, List.singleton_append] at h3
        obtain ⟨r, hr, hfin⟩ := h3
        subst hfin
        have h1 : attrDescOk (J.obj [("name",
            .str ("(allOf) " ++ clean_name (ref_name bv))),
            ("type", .str "object"),
            ("description", .str "Inheritance (collapsed)."),
            ("examples", .arr []),
            ("children", .arr [])]) = true :=
          attrDescOk_lit5 _ _ _ _ _ (by decide) rfl
        simp [attrsDescOk, h1, ih11 r hr]
    · rw [if_neg hb] at h2
      simp only [Option.bind_eq_bind, Option.bind_eq_some, Option.pure_def,
        Option.some_bind, Option.some.injEq, List.nil_append] at h2
      obtain ⟨r, hr, hfin⟩ := h2
      subst hfin
      exact ih11 r hr

/-- C8: for every Resolved Attribute in the output of resolve, at any
nesting depth, the description field is a non-empty string; in particular a
property node with no `description` key yields the generated fallback
string, which contains the property's own name. -/
theorem C8_descriptions_nonempty :
    (∀ comps sn v d t, resolve_schema comps sn v d = some t →
      attrsDescOk (childAttrs t) = true) ∧
    (∀ comps sn rkvs v d nm nkvs a,
      jGet nkvs "description" = none →
      add_property comps sn rkvs v d nm (J.obj nkvs) = some a →
      attrField a "description" =
        J.str ("No description provided for \"" ++ nm ++ "\".")) := by
  constructor
  · intro comps sn v d t h
    exact (resolver_descOk comps).1 sn v d t h
  · intro comps sn rkvs v d nm nkvs a hnone h
    obtain ⟨nkvs0, ptc, hnd, ha⟩ := add_property_shape h
    injection hnd with hk
    subst hk
    subst ha
    have hdesc : normalize_desc (dget nkvs "description") (J.str nm) =
        "No description provided for \"" ++ nm ++ "\"." := by
      rw [show dget nkvs "description" = J.null by simp [dget, hnone]]
      rfl
    simpa [attrField, dget, jGet, List.find?] using congrArg J.str hdesc

/-- Concrete instance of `C8_descriptions_nonempty`: a string-typed property
node without a description gets the fallback sentence naming `p`. -/
theorem C8_descriptions_nonempty_witness :
    jGet [("type", J.str "string")] "description" = none ∧
    attrField (J.obj [("name", .str "P"), ("type", .str "string"),
      ("description", .str "No description provided for \"p\"."),
      ("examples", .arr []), ("xSinceVersion", J.null), ("xFieldType", J.null),
      ("xTag", J.null), ("children", .arr [])]) "description" =
      J.str ("No description provided for \"" ++ "p" ++ "\".") :=
  ⟨by rfl,
   C8_descriptions_nonempty.2 [] "S" [] [] 0 "p" [("type", J.str "string")] _
     (by rfl)
     ((resolver_sound ([] : List (String × J)) 5).2.2.1 "S" [] [] 0 "p"
       (J.obj [("type", J.str "string")]) _ (by rfl))⟩

mutual

/-- Well-formedness of a schema node, sufficient for the resolver to avoid
every failing branch: a node is a JSON object; its `properties` entry, when
truthy, is an object all of whose values are well-formed nodes; its `items`
entry, when present, is a well-formed node; its `allOf` entry, when a list,
contains only objects. -/
def nodeWf : J → Bool
  | .obj nkvs => entriesWf nkvs
  | _ => false

def entriesWf : List (String × J) → Bool
  | [] => true
  | (k, v) :: rest =>
      (if k == "properties" then propsValWf v
       else if k == "items" then nodeWf v
       else if k == "allOf" then allOfValWf v
       else true) && entriesWf rest

def propsValWf : J → Bool
  | .obj pkvs => pairsWf pkvs
  | v => !v.truthy

def pairsWf : List (String × J) → Bool
  | [] => true
  | (_, v) :: rest => nodeWf v && pairsWf rest

def allOfValWf : J → Bool
  | .arr ms => membersWf ms
  | _ => true

def membersWf : List J → Bool
  | [] => true
  | m :: rest =>
      (match m with | .obj _ => true | _ => false) && membersWf rest

end

/-- A schema-store entry: `null` (treated as unknown) or a well-formed
object. -/
def schemaEntryWf : J → Bool
  | .null => true
  | .obj rkvs => entriesWf rkvs
  | _ => false

/-- Every entry of the component mapping is well-formed. -/
def compsWf : List (String × J) → Bool
  | [] => true
  | (_, v) :: rest => schemaEntryWf v && compsWf rest

/-- `d.get` on a cons whose head key matches. -/
theorem jGet_cons_pos (k : String) (w : J) (rest : List (String × J))
    (key : String) (h : (k == key) = true) :
    jGet ((k, w) :: rest) key = some w := by
  simp [jGet, List.find?, h]

/-- `d.get` on a cons whose head key does not match. -/
theorem jGet_cons_neg (k : String) (w : J) (rest : List (String × J))
    (key : String) (h : (k == key) = false) :
    jGet ((k, w) :: rest) key = jGet rest key := by
  simp [jGet, List.find?, h]

/-- Looking up a well-formed component mapping yields a well-formed
entry. -/
theorem compsWf_get :
    ∀ (comps : List (String × J)), compsWf comps = true →
      ∀ n v, jGet comps n = some v → schemaEntryWf v = true := by
  intro comps
  induction comps with
  | nil => intro _ n v hv; simp [jGet] at hv
  | cons p rest ih =>
      obtain ⟨k, w⟩ := p
      intro hwf n v hv
      simp only [compsWf, Bool.and_eq_true] at hwf
      by_cases hk : (k == n) = true
      · rw [jGet_cons_pos _ _ _ _ hk] at hv
        injection hv with hv2
        subst hv2
        exact hwf.1
      · rw [jGet_cons_neg _ _ _ _ (by simpa using hk)] at hv
        exact ih hwf.2 n v hv

/-- The `properties`, `items` and `allOf` entries of a well-formed node
satisfy their respective conditions. -/
theorem entriesWf_get :
    ∀ (nkvs : List (String × J)), entriesWf nkvs = true →
      (∀ pv, jGet nkvs "properties" = some pv → propsValWf pv = true) ∧
      (∀ iv, jGet nkvs "items" = some iv → nodeWf iv = true) ∧
      (∀ av, jGet nkvs "allOf" = some av → allOfValWf av = true) := by
  intro nkvs
  induction nkvs with
  | nil => intro _; refine ⟨?_, ?_, ?_⟩ <;> (intro x hx; simp [jGet] at hx)
  | cons p rest ih =>
      obtain ⟨k, w⟩ := p
      intro hwf
      rw [entriesWf, Bool.and_eq_true] at hwf
      obtain ⟨hk1, hrest⟩ := hwf
      have ihr := ih hrest
      refine ⟨?_, ?_, ?_⟩
      · intro pv hpv
        by_cases hk : (k == "properties") = true
        · rw [jGet_cons_pos _ _ _ _ hk] at hpv
          injection hpv with hpv2
          subst hpv2
          rw [if_pos hk] at hk1
          exact hk1
        · rw [jGet_cons_neg _ _ _ _ (by simpa using hk)] at hpv
          exact ihr.1 pv hpv
      · intro iv hiv
        by_cases hk : (k == "items") = true
        · rw [jGet_cons_pos _ _ _ _ hk] at hiv
          injection hiv with hiv2
          subst hiv2
          simp only [beq_iff_eq] at hk
          subst hk
          simp only [show (("items" : String) == "properties") = false from rfl,
            if_false, if_pos (show (("items" : String) == "items") = true from rfl)] at hk1
          exact hk1
        · rw [jGet_cons_neg _ _ _ _ (by simpa using hk)] at hiv
          exact ihr.2.1 iv hiv
      · intro av hav
        by_cases hk : (k == "allOf") = true
        · rw [jGet_cons_pos _ _ _ _ hk] at hav
          injection hav with hav2
          subst hav2
          simp only [beq_iff_eq] at hk
          subst hk
          simp only [show (("allOf" : String) == "properties") = false from rfl,
            show (("allOf" : String) == "items") = false from rfl,
            if_false,
            if_pos (show (("allOf" : String) == "allOf") = true from rfl)] at hk1
          exact hk1
        · rw [jGet_cons_neg _ _ _ _ (by simpa using hk)] at hav
          exact ihr.2.2 av hav

/-- On a well-formed node, line 188's `raw.get("properties") or {}` always
produces an object of well-formed property nodes. -/
theorem props_jor_wf (nkvs : List (String × J)) (h : entriesWf nkvs = true) :
    ∃ kvs, jor (dget nkvs "properties") (J.obj []) = J.obj kvs ∧
      pairsWf kvs = true := by
  cases hjp : jGet nkvs "properties" with
  | none =>
      refine ⟨[], ?_, rfl⟩
      simp [dget, hjp, jor, J.truthy]
  | some pv =>
      have hwv := (entriesWf_get nkvs h).1 pv hjp
      by_cases ht : pv.truthy = true
      · cases pv with
        | obj pkvs =>
            refine ⟨pkvs, ?_, ?_⟩
            · simp [dget, hjp, jor, ht]
            · simpa [propsValWf] using hwv
        | null => simp [J.truthy] at ht
        | bool b =>
            simp [propsValWf, J.truthy] at hwv
            subst hwv
            simp [J.truthy] at ht
        | num x =>
            simp [propsValWf, J.truthy] at hwv
            subst hwv
            simp [J.truthy] at ht
        | str s =>
            simp [propsValWf, J.truthy] at hwv
            subst hwv
            simp [J.truthy] at ht
        | arr xs =>
            simp [propsValWf, J.truthy] at hwv
            subst hwv
            simp [J.truthy] at ht
      · refine ⟨[], ?_, rfl⟩
        simp [dget, hjp, jor, ht]

/-- On a well-formed node, `node.get("items", {})` is a well-formed
object. -/
theorem items_wf (nkvs : List (String × J)) (h : entriesWf nkvs = true) :
    ∃ ikvs, dgetD nkvs "items" (J.obj []) = J.obj ikvs ∧
      entriesWf ikvs = true := by
  cases hji : jGet nkvs "items" with
  | none => exact ⟨[], by simp [dgetD, hji], rfl⟩
  | some iv =>
      have hwv := (entriesWf_get nkvs h).2.1 iv hji
      cases iv with
      | obj ikvs =>
          exact ⟨ikvs, by simp [dgetD, hji], by simpa [nodeWf] using hwv⟩
      | null => simp [nodeWf] at hwv
      | bool b => simp [nodeWf] at hwv
      | num x => simp [nodeWf] at hwv
      | str s => simp [nodeWf] at hwv
      | arr xs => simp [nodeWf] at hwv

/-- On a well-formed node, an object-valued `properties` entry has
well-formed values. -/
theorem props_dget_pairs (kvs0 kvs1 : List (String × J))
    (h : entriesWf kvs0 = true)
    (hp : dget kvs0 "properties" = J.obj kvs1) : pairsWf kvs1 = true := by
  cases hjp : jGet kvs0 "properties" with
  | none => simp [dget, hjp] at hp
  | some pv =>
      have hwv := (entriesWf_get kvs0 h).1 pv hjp
      rw [show dget kvs0 "properties" = pv by simp [dget, hjp]] at hp
      subst hp
      simpa [propsValWf] using hwv

/-- On a well-formed node, a non-object `properties` entry is falsy. -/
theorem props_dget_not_truthy (kvs0 : List (String × J))
    (h : entriesWf kvs0 = true)
    (hfalse : ∀ pkvs, dget kvs0 "properties" = J.obj pkvs → False) :
    (dget kvs0 "properties").truthy = false := by
  cases hjp : jGet kvs0 "properties" with
  | none => simp [dget, hjp, J.truthy]
  | some pv =>
      have hwv := (entriesWf_get kvs0 h).1 pv hjp
      have hd : dget kvs0 "properties" = pv := by simp [dget, hjp]
      rw [hd]
      cases pv with
      | obj pkvs => exact absurd hd (hfalse pkvs)
      | null => rfl
      | bool b => simpa [propsValWf] using hwv
      | num x => simpa [propsValWf] using hwv
      | str s => simpa [propsValWf] using hwv
      | arr xs => simpa [propsValWf] using hwv

/-- Mutual functional induction over the resolver: on a well-formed
component mapping none of its eleven functions ever fails (the modelled
Python exceptions, `Option.none`, are unreachable). -/
theorem resolver_total (comps : List (String × J))
    (hcomps : compsWf comps = true) :
    (∀ sn v d, (resolve_schema comps sn v d).isSome = true) ∧
    (∀ sn rkvs v d pl, pairsWf pl = true →
      (resolve_props comps sn rkvs v d pl).isSome = true) ∧
    (∀ sn rkvs v d nm nd, nodeWf nd = true →
      (add_property comps sn rkvs v d nm nd).isSome = true) ∧
    (∀ sn v d nkvs pt ch, entriesWf nkvs = true →
      (array_part comps sn v d nkvs pt ch).isSome = true) ∧
    (∀ ow v d pl, pairsWf pl = true →
      (build_attrs comps ow v d pl).isSome = true) ∧
    (∀ nm nd ow v d, nodeWf nd = true →
      (build_attr comps nm nd ow v d).isSome = true) ∧
    (∀ ow v d nkvs pt ch, entriesWf nkvs = true →
      (battr_array_part comps ow v d nkvs pt ch).isSome = true) ∧
    (∀ ow v d nkvs ch, entriesWf nkvs = true →
      (battr_props_part comps ow v d nkvs ch).isSome = true) ∧
    (∀ ow v d nkvs pt, (battr_ref_part comps ow v d nkvs pt).isSome = true) ∧
    (∀ sn v d nkvs, (ref_children comps sn v d nkvs).isSome = true) ∧
    (∀ sn v d ml, membersWf ml = true →
      (resolve_allOf comps sn v d ml).isSome = true) := by
  refine resolve_schema.mutual_induct comps _ _ _ _ _ _ _ _ _ _ _
    ?c1 ?c2 ?c3 ?c4 ?c5 ?c6 ?c7 ?c8 ?c9 ?c10 ?c11 ?c12 ?c13 ?c14 ?c15 ?c16
    ?c17 ?c18 ?c19 ?c20 ?c21 ?c22 ?c23 ?c24 ?c25 ?c26 ?c27 ?c28 ?c29 ?c30
    ?c31 ?c32 ?c33 ?c34 ?c35 ?c36 ?c37 ?c38 ?c39 ?c40
  case c1 =>
    intro sn v d hmem
    rw [resolve_schema, if_pos hmem]
    rfl
  case c2 =>
    intro sn v d hnm hget
    rw [resolve_schema, if_neg hnm, hget]
    rfl
  case c3 =>
    intro sn v d hnm hget
    rw [resolve_schema, if_neg hnm, hget]
    rfl
  case c4 =>
    intro sn v d hnm rkvs hget kvs hjor ih11 ih2
    have hsw : entriesWf rkvs = true := by
      simpa [schemaEntryWf] using compsWf_get comps hcomps sn _ hget
    have hpw : pairsWf kvs = true := by
      obtain ⟨kvs2, hj2, hpw2⟩ := props_jor_wf rkvs hsw
      rw [hjor] at hj2
      injection hj2 with e
      subst e
      exact hpw2
    rw [resolve_schema, if_neg hnm, hget]
    (try simp only [])
    rw [hjor]
    (try simp only [])
    obtain ⟨pa, hpa⟩ := Option.isSome_iff_exists.mp (ih2 hpw)
    rw [hpa]
    simp only [Option.pure_def, Option.bind_eq_bind, Option.some_bind]
    cases hall : jGet rkvs "allOf" with
    | none =>
        (try simp only [])
        simp
    | some av =>
        cases av with
        | arr members =>
            have hmw : membersWf members = true := by
              simpa [allOfValWf] using (entriesWf_get rkvs hsw).2.2 _ hall
            obtain ⟨aa, haa⟩ := Option.isSome_iff_exists.mp (ih11 members hmw)
            (try simp only [])
            rw [haa]
            simp
        | null => simp
        | bool b => simp
        | num x => simp
        | str st => simp
        | obj okvs => simp
  case c5 =>
    intro sn v d hnm rkvs hget hfalse ih11
    have hsw : entriesWf rkvs = true := by
      simpa [schemaEntryWf] using compsWf_get comps hcomps sn _ hget
    obtain ⟨kvs, hj, _⟩ := props_jor_wf rkvs hsw
    exact absurd hj (hfalse kvs)
  case c6 =>
    intro sn v d hnm val hnull hobj hget
    have hsw := compsWf_get comps hcomps sn _ hget
    cases val with
    | null => exact absurd rfl hnull
    | obj rkvs => exact absurd rfl (hobj rkvs)
    | bool b => simp [schemaEntryWf] at hsw
    | num x => simp [schemaEntryWf] at hsw
    | str s => simp [schemaEntryWf] at hsw
    | arr xs => simp [schemaEntryWf] at hsw
  case c7 =>
    intro sn rkvs v d hpw
    simp [resolve_props]
  case c8 =>
    intro sn rkvs v d nm nd rest ih3 ih2 hpw
    simp only [pairsWf, Bool.and_eq_true] at hpw
    obtain ⟨a, ha⟩ := Option.isSome_iff_exists.mp (ih3 hpw.1)
    obtain ⟨r, hr⟩ := Option.isSome_iff_exists.mp (ih2 hpw.2)
    rw [resolve_props, ha]
    simp only [Option.pure_def, Option.bind_eq_bind, Option.some_bind]
    rw [hr]
    simp
  case c9 =>
    intro sn rkvs v d nm kvs ptype0 ihr iha hnw
    have hkw : entriesWf kvs = true := by simpa [nodeWf] using hnw
    obtain ⟨c0, hc0⟩ := Option.isSome_iff_exists.mp ihr
    obtain ⟨ptc, hptc⟩ := Option.isSome_iff_exists.mp (iha c0 hkw)
    simp only [show ptype0 = dget kvs "type" from rfl] at hptc
    rw [add_property, hc0]
    simp only [Option.pure_def, Option.bind_eq_bind, Option.some_bind]
    rw [hptc]
    simp
  case c10 =>
    intro sn rkvs v d nm nd hfalse hnw
    cases nd with
    | obj kvs => exact absurd rfl (hfalse kvs)
    | null => simp [nodeWf] at hnw
    | bool b => simp [nodeWf] at hnw
    | num x => simp [nodeWf] at hnw
    | str s => simp [nodeWf] at hnw
    | arr xs => simp [nodeWf] at hnw
  case c11 =>
    intro sn v d nkvs pt ch hstr items hcrk hew
    simp only [show items = dgetD nkvs "items" (J.obj []) from rfl] at hcrk
    obtain ⟨ikvs, hik, _⟩ := items_wf nkvs hew
    rw [hik] at hcrk
    simp [containsRefKey] at hcrk
  case c12 =>
    intro sn v d nkvs pt ch hstr items hcrk ihm hew
    simp only [show items = dgetD nkvs "items" (J.obj []) from rfl] at hcrk
    obtain ⟨ikvs, hik, hiw⟩ := items_wf nkvs hew
    have hkr : hasKey ikvs "$ref" = true := by
      rw [hik] at hcrk
      simpa [containsRefKey] using hcrk
    obtain ⟨rv, hrv⟩ := Option.isSome_iff_exists.mp hkr
    rw [array_part, if_pos hstr]
    (try simp only [])
    rw [hcrk]
    (try simp only [])
    rw [hik]
    simp only [subscriptRef]
    rw [hrv]
    simp only [Option.pure_def, Option.bind_eq_bind, Option.some_bind]
    by_cases hdl : d < 2
    · rw [dif_pos hdl]
      obtain ⟨child, hchild⟩ := Option.isSome_iff_exists.mp (ihm rv hdl)
      rw [hchild]
      simp
    · rw [dif_neg hdl]
      simp
  case c13 =>
    intro sn v d nkvs pt ch hstr items hcrk kvs0 hitems kvs1 hprops htr ih5 hew
    simp only [show items = dgetD nkvs "items" (J.obj []) from rfl] at hcrk hitems
    have hikw : entriesWf kvs0 = true := by
      obtain ⟨ikvs, hik, hiw⟩ := items_wf nkvs hew
      rw [hik] at hitems
      injection hitems with e
      subst e
      exact hiw
    have hpw1 := props_dget_pairs kvs0 kvs1 hikw hprops
    obtain ⟨subs, hsubs⟩ := Option.isSome_iff_exists.mp (ih5 hpw1)
    rw [array_part, if_pos hstr]
    (try simp only [])
    rw [hcrk]
    (try simp only [])
    rw [hitems]
    (try simp only [])
    rw [hprops]
    (try simp only [])
    rw [if_pos htr, hsubs]
    simp
  case c14 =>
    intro sn v d nkvs pt ch hstr items hcrk kvs0 hitems kvs1 hprops htr hew
    simp only [show items = dgetD nkvs "items" (J.obj []) from rfl] at hcrk hitems
    rw [array_part, if_pos hstr]
    (try simp only [])
    rw [hcrk]
    (try simp only [])
    rw [hitems]
    (try simp only [])
    rw [hprops]
    (try simp only [])
    rw [if_neg htr]
    simp
  case c15 =>
    intro sn v d nkvs pt ch hstr items hcrk kvs0 hitems hfalse htr hew
    simp only [show items = dgetD nkvs "items" (J.obj []) from rfl] at hcrk hitems
    have hikw : entriesWf kvs0 = true := by
      obtain ⟨ikvs, hik, hiw⟩ := items_wf nkvs hew
      rw [hik] at hitems
      injection hitems with e
      subst e
      exact hiw
    rw [props_dget_not_truthy kvs0 hikw hfalse] at htr
    simp at htr
  case c16 =>
    intro sn v d nkvs pt ch hstr items hcrk kvs0 hitems hfalse htr hew
    simp only [show items = dgetD nkvs "items" (J.obj []) from rfl] at hcrk hitems
    rw [array_part, if_pos hstr]
    (try simp only [])
    rw [hcrk]
    (try simp only [])
    rw [hitems]
    (try simp only [])
    cases hdp : dget kvs0 "properties" with
    | obj pkvs => exact absurd hdp (hfalse pkvs)
    | null =>
        rw [hdp] at htr
        (try simp only [])
        rw [if_neg htr]
        simp
    | bool b =>
        rw [hdp] at htr
        (try simp only [])
        rw [if_neg htr]
        simp
    | num x =>
        rw [hdp] at htr
        (try simp only [])
        rw [if_neg htr]
        simp
    | str s =>
        rw [hdp] at htr
        (try simp only [])
        rw [if_neg htr]
        simp
    | arr xs =>
        rw [hdp] at htr
        (try simp only [])
        rw [if_neg htr]
        simp
  case c17 =>
    intro sn v d nkvs pt ch hstr items hcrk hfalse hew
    simp only [show items = dgetD nkvs "items" (J.obj []) from rfl] at hcrk hfalse
    obtain ⟨ikvs, hik, _⟩ := items_wf nkvs hew
    exact absurd hik (hfalse ikvs)
  case c18 =>
    intro sn v d nkvs pt ch hstr hew
    rw [array_part, if_neg hstr]
    simp
  case c19 =>
    intro ow v d hpw
    simp [build_attrs]
  case c20 =>
    intro ow v d nm nd rest ih6 ih5 hpw
    simp only [pairsWf, Bool.and_eq_true] at hpw
    obtain ⟨a, ha⟩ := Option.isSome_iff_exists.mp (ih6 hpw.1)
    obtain ⟨r, hr⟩ := Option.isSome_iff_exists.mp (ih5 hpw.2)
    rw [build_attrs, ha]
    simp only [Option.pure_def, Option.bind_eq_bind, Option.some_bind]
    rw [hr]
    simp
  case c21 =>
    intro nm ow vt dpth kvs ptype0 ih9 ih8 ih7 hnw
    have hkw : entriesWf kvs = true := by simpa [nodeWf] using hnw
    obtain ⟨pc, hpc⟩ := Option.isSome_iff_exists.mp ih9
    simp only [show ptype0 = dgetD kvs "type" (J.str "object") from rfl] at hpc
    obtain ⟨c2, hc2⟩ := Option.isSome_iff_exists.mp (ih8 pc hkw)
    obtain ⟨ptc, hptc⟩ := Option.isSome_iff_exists.mp (ih7 pc c2 hkw)
    rw [build_attr, hpc]
    simp only [Option.pure_def, Option.bind_eq_bind, Option.some_bind]
    rw [hc2]
    simp only [Option.pure_def, Option.bind_eq_bind, Option.some_bind]
    rw [hptc]
    simp
  case c22 =>
    intro nm nd ow vt dpth hfalse hnw
    cases nd with
    | obj kvs => exact absurd rfl (hfalse kvs)
    | null => simp [nodeWf] at hnw
    | bool b => simp [nodeWf] at hnw
    | num x => simp [nodeWf] at hnw
    | str s => simp [nodeWf] at hnw
    | arr xs => simp [nodeWf] at hnw
  case c23 =>
    intro ow vt dpth nkvs pt ch hcond kvs0 hitems hkref r hdl ihm hew
    obtain ⟨child, hchild⟩ := Option.isSome_iff_exists.mp ihm
    rw [battr_array_part, if_pos hcond]
    (try simp only [])
    rw [hitems]
    (try simp only [])
    rw [if_pos hkref, dif_pos hdl, hchild]
    simp
  case c24 =>
    intro ow vt dpth nkvs pt ch hcond kvs0 hitems hkref hdl hew
    rw [battr_array_part, if_pos hcond]
    (try simp only [])
    rw [hitems]
    (try simp only [])
    rw [if_pos hkref, dif_neg hdl]
    simp
  case c25 =>
    intro ow vt dpth nkvs pt ch hcond kvs0 hitems hkref hew
    rw [battr_array_part, if_pos hcond]
    (try simp only [])
    rw [hitems]
    (try simp only [])
    rw [if_neg hkref]
    simp
  case c26 =>
    intro ow vt dpth nkvs pt ch hcond hfalse hew
    obtain ⟨ikvs, hik, _⟩ := items_wf nkvs hew
    exact absurd hik (hfalse ikvs)
  case c27 =>
    intro ow vt dpth nkvs pt ch hcond hew
    rw [battr_array_part, if_neg hcond]
    simp
  case c28 =>
    intro ow vt dpth nkvs ch pkvs hp htr ih5 hew
    have hpw : pairsWf pkvs = true := by
      simpa [propsValWf] using (entriesWf_get nkvs hew).1 _ hp
    obtain ⟨subs, hsubs⟩ := Option.isSome_iff_exists.mp (ih5 hpw)
    rw [battr_props_part]
    split
    · rename_i pkvs2 heq
      rw [hp] at heq
      injection heq with e1
      injection e1 with e2
      subst e2
      rw [if_pos htr, hsubs]
      simp
    · rename_i pv hne heq
      rw [hp] at heq
      injection heq with e1
      exact absurd e1.symm (hne pkvs)
    · rename_i heq
      rw [hp] at heq
      simp at heq
  case c29 =>
    intro ow vt dpth nkvs ch pkvs hp htr hew
    rw [battr_props_part]
    split
    · rename_i pkvs2 heq
      rw [hp] at heq
      injection heq with e1
      injection e1 with e2
      subst e2
      rw [if_neg htr]
      simp
    · rename_i pv hne heq
      rw [hp] at heq
      injection heq with e1
      exact absurd e1.symm (hne pkvs)
    · rename_i heq
      rw [hp] at heq
      simp at heq
  case c30 =>
    intro ow vt dpth nkvs ch val hfalse hp htr hew
    have hwv := (entriesWf_get nkvs hew).1 val hp
    cases val with
    | obj pkvs => exact absurd rfl (hfalse pkvs)
    | null => simp [J.truthy] at htr
    | bool b =>
        simp [propsValWf, J.truthy] at hwv
        subst hwv
        simp [J.truthy] at htr
    | num x =>
        simp [propsValWf, J.truthy] at hwv
        subst hwv
        simp [J.truthy] at htr
    | str s =>
        simp [propsValWf, J.truthy] at hwv
        subst hwv
        simp [J.truthy] at htr
    | arr xs =>
        simp [propsValWf, J.truthy] at hwv
        subst hwv
        simp [J.truthy] at htr
  case c31 =>
    intro ow vt dpth nkvs ch val hfalse hp htr hew
    rw [battr_props_part]
    split
    · rename_i pkvs2 heq
      rw [hp] at heq
      injection heq with e1
      exact absurd e1 (hfalse pkvs2)
    · rename_i pv hne heq
      rw [hp] at heq
      injection heq with e1
      subst e1
      rw [if_neg htr]
      simp
    · rename_i heq
      rw [hp] at heq
      simp at heq
  case c32 =>
    intro ow vt dpth nkvs ch hp hew
    rw [battr_props_part]
    split
    · rename_i pkvs2 heq
      rw [hp] at heq
      simp at heq
    · rename_i pv hne heq
      rw [hp] at heq
      simp at heq
    · simp
  case c33 =>
    intro ow vt dpth nkvs pt hkey r hdl ihm
    obtain ⟨child, hchild⟩ := Option.isSome_iff_exists.mp ihm
    rw [battr_ref_part, if_pos hkey]
    (try simp only [])
    rw [dif_pos hdl, hchild]
    simp
  case c34 =>
    intro ow vt dpth nkvs pt hkey hdl
    rw [battr_ref_part, if_pos hkey]
    (try simp only [])
    rw [dif_neg hdl]
    simp
  case c35 =>
    intro ow vt dpth nkvs pt hkey
    rw [battr_ref_part, if_neg hkey]
    simp
  case c36 =>
    intro sn v d nkvs hkey r hdl ihm
    obtain ⟨child, hchild⟩ := Option.isSome_iff_exists.mp ihm
    rw [ref_children, if_pos hkey]
    (try simp only [])
    rw [dif_pos hdl, hchild]
    simp
  case c37 =>
    intro sn v d nkvs hkey hdl
    rw [ref_children, if_pos hkey]
    (try simp only [])
    rw [dif_neg hdl]
    simp
  case c38 =>
    intro sn v d nkvs hkey
    rw [ref_children, if_neg hkey]
    simp
  case c39 =>
    intro sn v d hmw
    simp [resolve_allOf]
  case c40 =>
    intro sn v d member rest ih11 ihm hmw
    simp only [membersWf, Bool.and_eq_true] at hmw
    obtain ⟨hv, hrest⟩ := hmw
    obtain ⟨r, hr⟩ := Option.isSome_iff_exists.mp (ih11 hrest)
    cases member with
    | obj mkvs =>
        rw [resolve_allOf]
        rw [show containsRefKey (J.obj mkvs) =
          some (hasKey mkvs "$ref") from rfl]
        simp only [Option.pure_def, Option.bind_eq_bind, Option.some_bind]
        by_cases hkr : hasKey mkvs "$ref" = true
        · rw [if_pos hkr]
          obtain ⟨bv, hbv⟩ := Option.isSome_iff_exists.mp hkr
          rw [show subscriptRef (J.obj mkvs) = jGet mkvs "$ref" from rfl]
          rw [hbv]
          simp only [Option.pure_def, Option.bind_eq_bind, Option.some_bind]
          by_cases hdl : d < 2
          · rw [dif_pos hdl]
            obtain ⟨child, hchild⟩ := Option.isSome_iff_exists.mp (ihm bv hdl)
            rw [hchild]
            simp only [Option.pure_def, Option.bind_eq_bind, Option.some_bind]
            rw [hr]
            simp
          · rw [dif_neg hdl]
            rw [hr]
            simp
        · rw [if_neg hkr]
          (try simp only [Option.pure_def, Option.bind_eq_bind,
            Option.some_bind])
          rw [hr]
          simp
    | null => simp at hv
    | bool b => simp at hv
    | num x => simp at hv
    | str s => simp at hv
    | arr xs => simp at hv

/-- C4 counterexample: resolution does raise on malformed sub-structure.  A
schema whose `properties` is a (truthy) list crashes the `.items()` call of
app.py line 188, and a property node that is a bare string crashes the
`node.get` calls of `add_property` (lines 102–105); both are modelled by
`none`. -/
theorem C4_malformed_counterexample :
    resolve_root [("A", J.obj [("properties", J.arr [J.str "x"])])] "A" =
      none ∧
    resolve_root [("A", J.obj [("properties", J.obj [("p", J.str "x")])])]
      "A" = none :=
  ⟨(resolver_sound [("A", J.obj [("properties", J.arr [J.str "x"])])] 20).1
     "A" [] 0 none (by rfl),
   (resolver_sound [("A", J.obj [("properties", J.obj [("p", J.str "x")])])]
     20).1 "A" [] 0 none (by rfl)⟩

/-- C4 (amended): resolution never fails on a well-formed component
mapping — objects for schemas and property nodes, with the conditions of
`compsWf`; the documented fallbacks cover missing sub-structure, but not a
truthy non-object `properties`, a non-object property node, a non-object
`items`, or a non-object `allOf` member, each of which raises. -/
theorem C4_no_failure_amended :
    ∀ comps n, compsWf comps = true → (resolve_root comps n).isSome = true :=
  fun comps n h => (resolver_total comps h).1 n [] 0

/-- Concrete instance of `C4_no_failure_amended` on a one-schema store. -/
theorem C4_no_failure_amended_witness :
    compsWf [("A", J.obj [("properties", J.obj [("p",
      J.obj [("type", J.str "string")])])])] = true ∧
    (resolve_root [("A", J.obj [("properties", J.obj [("p",
      J.obj [("type", J.str "string")])])])] "A").isSome = true :=
  ⟨by decide, C4_no_failure_amended _ "A" (by decide)⟩
